import Mathlib

/-!
Shallow embedding of the serial bootloader in src/bl.c (command protocol and
flash-programming state machine), together with proofs about the protocol
claims.  The bootloader is modelled one command at a time: the host byte
stream is a list of read results (`some b` when a byte arrives before the
read deadline, `none` when the deadline expires), and each command handler
is a direct translation of the corresponding `case` of the big `switch` in
`bootloader()`.  The build configuration modelled here has
`ENABLE_ENCRYPTION` and `BOOT_DELAY_ADDRESS` defined and the FMUv4
bad-silicon check disabled, matching the code paths the claims are about.
-/

namespace BL

/-- 2^32, the modulus of the C `uint32_t` arithmetic. -/
def M32 : Nat := 4294967296

/-- The erased-flash word 0xFFFFFFFF. -/
def FF : Nat := 4294967295

/-- End-of-command byte (PROTO_EOC, 0x20). -/
def PROTO_EOC : Nat := 32

/-- Protocol revision returned for PROTO_DEVICE_BL_REV (BL_PROTOCOL_VERSION). -/
def bl_proto_rev : Nat := 7

/-- Little-endian byte view of a 32-bit word, as `(uint8_t *)&w` produces. -/
def wordBytes (w : Nat) : List Nat :=
  [w % 256, w / 256 % 256, w / 65536 % 256, w / 16777216 % 256]

/-- Assemble a 32-bit word from four little-endian bytes. -/
def bytesWord (b0 b1 b2 b3 : Nat) : Nat :=
  b0 + 256 * b1 + 65536 * b2 + 16777216 * b3

/-- One shift step of the CRC table generator in `crc32()` of bl.c. -/
def crcShift (c : Nat) : Nat :=
  if c % 2 = 1 then Nat.xor 3988292384 (c / 2) else c / 2

/-- Entry `i` of the lazily generated CRC table: eight shift steps. -/
def crctab (i : Nat) : Nat := crcShift^[8] i

/-- One byte of the CRC loop: `state = crctab[(state ^ b) & 0xff] ^ (state >> 8)`. -/
def crc32_update (state b : Nat) : Nat :=
  Nat.xor (crctab (Nat.xor state b % 256)) (state / 256)

/-- The `crc32(src, len, state)` function of bl.c over a byte list. -/
def crc32 (src : List Nat) (state : Nat) : Nat :=
  src.foldl crc32_update state

/-- Board-specific constants and drivers consumed by bl.c.
Modelled from the spec: `board_info`, the OTP/serial/MCU-id reads and the
boot-delay signature location are provided by board files that are not part
of src/, so they appear here as parameters (contracts of section 6 of the
spec). -/
structure BoardInfo where
  fw_size : Nat
  board_type : Nat
  board_rev : Nat
  otp : Nat → Nat
  sn : Nat → Nat
  mcu_id : Nat
  mcu_desc : List Nat
  boot_delay_addr : Nat
  boot_delay_sig1 : Nat
  boot_delay_sig2 : Nat
  boot_delay_max : Nat

/-- The session state of `bootloader()`: the local variables of the function,
the static scratch buffers, the application-region flash and the key region.
`flash` maps a word-aligned byte offset of the app region to the 32-bit word
stored there; `stuck` marks faulty cells on which a write has no effect
(the partial-failure adversary of the spec, used by write-verify claims).
`key` is the 16-byte key region viewed as 4 little-endian words. -/
structure St where
  address : Nat
  first_word : Nat
  num_to_flash : Nat
  crc32_sum : Nat
  iv : List Nat
  key_state : Nat
  flash_buffer : List Nat
  encrypted_buffer : List Nat
  flash : Nat → Nat
  stuck : Nat → Bool
  key : List Nat

/-- Replace the slice of `b` starting at index `i` by `xs` (the effect of a
byte-wise store loop into a fixed buffer). -/
def overwriteAt (b : List Nat) (i : Nat) (xs : List Nat) : List Nat :=
  b.take i ++ xs ++ b.drop (i + xs.length)

/-- Word `i` of a byte buffer, through the little-endian `union` view
`flash_buffer.w[i]`. -/
def bufWord (b : List Nat) (i : Nat) : Nat :=
  bytesWord (b.getD (4 * i) 0) (b.getD (4 * i + 1) 0)
    (b.getD (4 * i + 2) 0) (b.getD (4 * i + 3) 0)

/-- Store word `w` at word index `i` of a byte buffer (`flash_buffer.w[i] = w`). -/
def bufSetWord (b : List Nat) (i w : Nat) : List Nat :=
  overwriteAt b (4 * i) (wordBytes w)

/-- `flash_func_read_word(address)`. -/
def flash_func_read_word (st : St) (a : Nat) : Nat := st.flash a

/-- `flash_func_write_word(address, word)`: a write to a stuck cell has no
effect, a write to a healthy cell stores the word. -/
def flash_func_write_word (st : St) (a w : Nat) : St :=
  if st.stuck a then st
  else { st with flash := fun x => if x = a then w else st.flash x }

/-- Modelled from the spec: `flash_func_erase_sector` is a board driver that
is not part of src/.  The CHIP_ERASE loop erases every sector (until the
`sector_size(i) == 0` sentinel), which sets every healthy word of the chip
to 0xFFFFFFFF; stuck cells keep their value, to be caught by the verify
sweep. -/
def eraseAllSectors (st : St) : St :=
  { st with flash := fun x => if st.stuck x then st.flash x else FF }

/-- `validate_key()`: 1 when every word of the key region is zero
(key invalidated), else 0. -/
def validate_key (key : List Nat) : Nat :=
  if key.all (fun w => w = 0) then 1 else 0

/-- `zero_key()`: write 0 over every nonzero word of the key region. -/
def zero_key (st : St) : St :=
  { st with key := st.key.map (fun w => if w ≠ 0 then 0 else w) }

/-- The byte view `key.b` of the key region words. -/
def keyBytes (key : List Nat) : List Nat :=
  (key.map wordBytes).flatten

/-- The read side of a command: the pending read results of the host stream
and the trace of deadlines passed to `cin_wait` so far. -/
structure Rd where
  inp : List (Option Nat)
  dls : List Nat

/-- `cin_wait(timeout)`: consume the next read result, recording the
deadline; an exhausted stream reads as a timeout.  Transport bytes are
8-bit, hence the mask. -/
def cin_wait (t : Nat) (r : Rd) : Option Nat × Rd :=
  match r.inp with
  | [] => (none, { r with dls := r.dls ++ [t] })
  | x :: rest => (x.map (fun b => b % 256), { inp := rest, dls := r.dls ++ [t] })

/-- `wait_for_eoc(timeout)`: one read, true iff it returns PROTO_EOC. -/
def wait_for_eoc (t : Nat) (r : Rd) : Bool × Rd :=
  match cin_wait t r with
  | (c, r1) => (c = some PROTO_EOC, r1)

/-- `cin_word(&w, timeout)`: four byte reads assembled little-endian,
failing at the first timeout. -/
def cin_word (t : Nat) (r : Rd) : Option Nat × Rd :=
  match cin_wait t r with
  | (none, r1) => (none, r1)
  | (some b0, r1) =>
    match cin_wait t r1 with
    | (none, r2) => (none, r2)
    | (some b1, r2) =>
      match cin_wait t r2 with
      | (none, r3) => (none, r3)
      | (some b2, r3) =>
        match cin_wait t r3 with
        | (none, r4) => (none, r4)
        | (some b3, r4) => (some (bytesWord b0 b1 b2 b3), r4)

/-- The payload loop `for (i...) { c = cin_wait(t); buf[i] = c; }`: read `k`
bytes, returning the bytes stored so far and whether all reads succeeded. -/
def readBytes (t : Nat) : Nat → Rd → List Nat × Bool × Rd
  | 0, r => ([], true, r)
  | k + 1, r =>
    match cin_wait t r with
    | (none, r1) => ([], false, r1)
    | (some b, r1) =>
      match readBytes t k r1 with
      | (bs, ok, r2) => (b :: bs, ok, r2)

/-- The status byte of a reply frame (the FMUv4-only BAD_SILICON reply is
not part of this build). -/
inductive Status where
  | ok
  | invalid
  | failed
  | badKey
deriving DecidableEq, Repr

/-- The observable outcome of one command: the state afterwards, the status
byte of the reply (`none` when the opcode is silently ignored), the 32-bit
values emitted before the sync pair, the deadlines of all reads performed,
and whether the command ended the session by booting. -/
structure CmdOut where
  st : St
  reply : Option Status
  out : List Nat
  dls : List Nat
  booted : Bool

/-- Outcome of the `cmd_bad` label: INSYNC/INVALID. -/
def cmdBad (st : St) (r : Rd) : CmdOut := ⟨st, some Status.invalid, [], r.dls, false⟩

/-- Outcome of the `cmd_fail` label: INSYNC/FAILED. -/
def cmdFail (st : St) (r : Rd) : CmdOut := ⟨st, some Status.failed, [], r.dls, false⟩

/-- Outcome of the `bad_key` label: INSYNC/BAD_KEY. -/
def cmdBadKey (st : St) (r : Rd) : CmdOut := ⟨st, some Status.badKey, [], r.dls, false⟩

/-- Outcome of `break`: the loop tail sends INSYNC/OK, with `out` already
written by the handler. -/
def cmdOkOut (st : St) (out : List Nat) (r : Rd) : CmdOut :=
  ⟨st, some Status.ok, out, r.dls, false⟩

/-- Outcome of `break` with no data bytes. -/
def cmdOk (st : St) (r : Rd) : CmdOut := ⟨st, some Status.ok, [], r.dls, false⟩

/-- Outcome of PROTO_BOOT's `return`: sync is sent, then the session ends. -/
def cmdBoot (st : St) (r : Rd) : CmdOut := ⟨st, some Status.ok, [], r.dls, true⟩

/-- Outcome of `default: continue`: unknown opcode, no reply at all. -/
def cmdSilent (st : St) (r : Rd) : CmdOut := ⟨st, none, [], r.dls, false⟩

/-- PROTO_GET_SYNC. -/
def doGetSync (st : St) (r : Rd) : CmdOut :=
  match wait_for_eoc 2 r with
  | (false, r1) => cmdBad st r1
  | (true, r1) => cmdOk st r1

/-- PROTO_GET_DEVICE. -/
def doGetDevice (bi : BoardInfo) (st : St) (r : Rd) : CmdOut :=
  match cin_wait 1000 r with
  | (none, r1) => cmdBad st r1
  | (some arg, r1) =>
    match wait_for_eoc 2 r1 with
    | (false, r2) => cmdBad st r2
    | (true, r2) =>
      if arg = 1 then cmdOkOut st [bl_proto_rev] r2
      else if arg = 2 then cmdOkOut st [bi.board_type] r2
      else if arg = 3 then cmdOkOut st [bi.board_rev] r2
      else if arg = 4 then cmdOkOut st [bi.fw_size] r2
      else if arg = 5 then
        cmdOkOut st [st.flash 28, st.flash 32, st.flash 36, st.flash 40] r2
      else cmdBad st r2

/-- The CHIP_ERASE verify sweep `for (address = 0; address < fw_size;
address += 4)`: `none` when every word reads back erased, otherwise the
first offending offset (the value the session's `address` variable is left
holding).  `n` is the iteration count `(fw_size + 3) / 4`. -/
def eraseVerify (read : Nat → Nat) : Nat → Nat → Option Nat
  | 0, _ => none
  | n + 1, p => if read p ≠ FF then some p else eraseVerify read n (p + 4)

/-- PROTO_CHIP_ERASE. -/
def doChipErase (bi : BoardInfo) (st : St) (r : Rd) : CmdOut :=
  match wait_for_eoc 2 r with
  | (false, r1) => cmdBad st r1
  | (true, r1) =>
    let st1 := eraseAllSectors st
    match eraseVerify st1.flash ((bi.fw_size + 3) / 4) 0 with
    | some p => cmdFail { st1 with address := p } r1
    | none => cmdOk { st1 with address := 0 } r1

/-- The word list `flash_buffer.w[start..cnt)` fed to a programming loop. -/
def progWords (buf : List Nat) (start cnt : Nat) : List Nat :=
  ((List.range cnt).drop start).map (bufWord buf)

/-- The programming loop shared by PROG_MULTI and PROG_MULTI_ENCRYPTED:
write each word at the session address, read it back, fail on the first
mismatch, advancing `address` by 4 per verified word (uint32 arithmetic). -/
def writeWords : St → List Nat → St × Bool
  | st, [] => (st, true)
  | st, w :: ws =>
    let st1 := flash_func_write_word st st.address w
    if flash_func_read_word st1 st1.address ≠ w then (st1, false)
    else writeWords { st1 with address := (st1.address + 4) % M32 } ws

/-- The exit of a programming command: INSYNC/OK when every word verified,
INSYNC/FAILED on the first read-back mismatch. -/
def progTail (st2 : St) (ws : List Nat) (r : Rd) : CmdOut :=
  match writeWords st2 ws with
  | (st3, true) => cmdOk st3 r
  | (st3, false) => cmdFail st3 r

/-- PROTO_PROG_MULTI. -/
def doProgMulti (bi : BoardInfo) (st : St) (r : Rd) : CmdOut :=
  match cin_wait 50 r with
  | (none, r1) => cmdBad st r1
  | (some arg, r1) =>
    if arg % 4 ≠ 0 then cmdBad st r1
    else if (st.address + arg) % M32 > bi.fw_size then cmdBad st r1
    else if arg > 256 then cmdBad st r1
    else
      match readBytes 1000 arg r1 with
      | (bs, false, r2) =>
        cmdBad { st with flash_buffer := overwriteAt st.flash_buffer 0 bs } r2
      | (bs, true, r2) =>
        let st1 := { st with flash_buffer := overwriteAt st.flash_buffer 0 bs }
        match wait_for_eoc 200 r2 with
        | (false, r3) => cmdBad st1 r3
        | (true, r3) =>
          let st2 :=
            if st1.address = 0 then
              let stk := zero_key st1
              { stk with first_word := bufWord stk.flash_buffer 0,
                         flash_buffer := bufSetWord stk.flash_buffer 0 FF }
            else st1
          progTail st2 (progWords st2.flash_buffer 0 (arg / 4)) r3

/-- The CRC loop shared by GET_CRC and CHECK_CRC: `n` words starting at
offset `p`, substituting the in-memory `first_word` when reading offset 0
while an upload is pending. -/
def crcLoop (read : Nat → Nat) (fw : Nat) : Nat → Nat → Nat → Nat
  | 0, _, sum => sum
  | n + 1, p, sum =>
    let bytes := if p = 0 ∧ fw ≠ FF then fw else read p
    crcLoop read fw n (p + 4) (crc32 (wordBytes bytes) sum)

/-- PROTO_GET_CRC. -/
def doGetCrc (bi : BoardInfo) (st : St) (r : Rd) : CmdOut :=
  match wait_for_eoc 2 r with
  | (false, r1) => cmdBad st r1
  | (true, r1) =>
    cmdOkOut st [crcLoop st.flash st.first_word ((bi.fw_size + 3) / 4) 0 0] r1

/-- PROTO_GET_OTP. -/
def doGetOtp (bi : BoardInfo) (st : St) (r : Rd) : CmdOut :=
  match cin_word 100 r with
  | (none, r1) => cmdBad st r1
  | (some index, r1) =>
    match wait_for_eoc 2 r1 with
    | (false, r2) => cmdBad st r2
    | (true, r2) => cmdOkOut st [bi.otp index] r2

/-- PROTO_GET_SN. -/
def doGetSn (bi : BoardInfo) (st : St) (r : Rd) : CmdOut :=
  match cin_word 100 r with
  | (none, r1) => cmdBad st r1
  | (some index, r1) =>
    match wait_for_eoc 2 r1 with
    | (false, r2) => cmdBad st r2
    | (true, r2) => cmdOkOut st [bi.sn index] r2

/-- PROTO_GET_CHIP. -/
def doGetChip (bi : BoardInfo) (st : St) (r : Rd) : CmdOut :=
  match wait_for_eoc 2 r with
  | (false, r1) => cmdBad st r1
  | (true, r1) => cmdOkOut st [bi.mcu_id] r1

/-- PROTO_GET_CHIP_DES. -/
def doGetChipDes (bi : BoardInfo) (st : St) (r : Rd) : CmdOut :=
  match wait_for_eoc 2 r with
  | (false, r1) => cmdBad st r1
  | (true, r1) => cmdOkOut st (bi.mcu_desc.length :: bi.mcu_desc) r1

/-- PROTO_SET_DELAY. -/
def doSetDelay (bi : BoardInfo) (st : St) (r : Rd) : CmdOut :=
  match cin_wait 100 r with
  | (none, r1) => cmdBad st r1
  | (some v, r1) =>
    if v > bi.boot_delay_max then cmdBad st r1
    else
      match wait_for_eoc 2 r1 with
      | (false, r2) => cmdBad st r2
      | (true, r2) =>
        if flash_func_read_word st bi.boot_delay_addr ≠ bi.boot_delay_sig1 ∨
            flash_func_read_word st (bi.boot_delay_addr + 4) ≠ bi.boot_delay_sig2 then
          cmdBad st r2
        else
          let value := bi.boot_delay_sig1 % M32 / 256 * 256 + v
          let st1 := flash_func_write_word st bi.boot_delay_addr value
          if flash_func_read_word st1 bi.boot_delay_addr ≠ value then cmdFail st1 r2
          else cmdOk st1 r2

/-- PROTO_BOOT: program the deferred first word, verify it, and on success
send sync and return to the caller (which jumps to the application). -/
def doBoot (st : St) (r : Rd) : CmdOut :=
  match wait_for_eoc 1000 r with
  | (false, r1) => cmdBad st r1
  | (true, r1) =>
    if st.first_word ≠ FF then
      let st1 := flash_func_write_word st 0 st.first_word
      if flash_func_read_word st1 0 ≠ st.first_word then cmdFail st1 r1
      else cmdBoot { st1 with first_word := FF } r1
    else cmdBoot st r1

/-- PROTO_DEBUG: reserved, replies OK without reading anything. -/
def doDebug (st : St) (r : Rd) : CmdOut := cmdOk st r

/-- PROTO_SET_IV. -/
def doSetIv (st : St) (r : Rd) : CmdOut :=
  match readBytes 1000 16 r with
  | (bs, false, r1) => cmdBad { st with iv := overwriteAt st.iv 0 bs } r1
  | (bs, true, r1) =>
    let st1 := { st with iv := overwriteAt st.iv 0 bs }
    match wait_for_eoc 200 r1 with
    | (false, r2) => cmdBad st1 r2
    | (true, r2) => cmdOk st1 r2

/-- Pad or truncate a byte list to exactly 16 entries. -/
def padTo16 (l : List Nat) : List Nat := (l ++ List.replicate 16 0).take 16

/-- The per-block decryption loop of PROG_MULTI_ENCRYPTED: decrypt each
16-byte ciphertext block of `eb` into `fb` and carry the CBC chain by
setting the IV to the ciphertext block just consumed.  `dec` is the
AES-128-CBC single-block primitive.
Modelled from the spec: `aes128_cbc_decrypt_block(out, in, key, iv)` is an
external board primitive, so it is a parameter here. -/
def decLoop (dec : List Nat → List Nat → List Nat → List Nat) (kb : List Nat) :
    Nat → Nat → List Nat → List Nat → List Nat → List Nat × List Nat
  | 0, _, fb, _, iv => (fb, iv)
  | n + 1, i, fb, eb, iv =>
    let ct := padTo16 ((eb.drop i).take 16)
    let pt := padTo16 (dec ct kb iv)
    decLoop dec kb n (i + 16) (overwriteAt fb i pt) eb ct

/-- PROTO_PROG_MULTI_ENCRYPTED. -/
def doProgMultiEnc (bi : BoardInfo) (dec : List Nat → List Nat → List Nat → List Nat)
    (st : St) (r : Rd) : CmdOut :=
  match cin_wait 50 r with
  | (none, r1) => cmdBad st r1
  | (some arg, r1) =>
    if arg % 4 ≠ 0 then cmdBad st r1
    else if (st.address + arg) % M32 > bi.fw_size then cmdBad st r1
    else if arg > 256 then cmdBad st r1
    else
      match readBytes 1000 arg r1 with
      | (bs, false, r2) =>
        cmdBad { st with encrypted_buffer := overwriteAt st.encrypted_buffer 0 bs } r2
      | (bs, true, r2) =>
        let st1 := { st with encrypted_buffer := overwriteAt st.encrypted_buffer 0 bs }
        match wait_for_eoc 200 r2 with
        | (false, r3) => cmdBad st1 r3
        | (true, r3) =>
          if st1.key_state ≠ 0 then cmdBadKey st1 r3
          else if arg % 16 = 0 ∧ arg < 255 then
            let dr := decLoop dec (keyBytes st1.key) (arg / 16) 0
              st1.flash_buffer st1.encrypted_buffer st1.iv
            let st2 := { st1 with flash_buffer := dr.1, iv := dr.2 }
            let sth :=
              if st2.address = 0 then
                { st2 with num_to_flash := bufWord st2.flash_buffer 0,
                           crc32_sum := bufWord st2.flash_buffer 1,
                           first_word := bufWord st2.flash_buffer 4,
                           flash_buffer := bufSetWord st2.flash_buffer 4 FF }
              else st2
            let start := if st2.address = 0 then 4 else 0
            if sth.num_to_flash > bi.fw_size then cmdFail sth r3
            else progTail sth (progWords sth.flash_buffer start (arg / 4)) r3
          else cmdBad st1 r3

/-- PROTO_CHECK_CRC. -/
def doCheckCrc (bi : BoardInfo) (st : St) (r : Rd) : CmdOut :=
  match wait_for_eoc 2 r with
  | (false, r1) => cmdBad st r1
  | (true, r1) =>
    if st.num_to_flash > bi.fw_size then cmdFail st r1
    else
      let s := crcLoop st.flash st.first_word ((st.num_to_flash + 3) / 4) 0 0
      if s ≠ st.crc32_sum then cmdFail st r1
      else cmdOk st r1

/-- PROTO_CHECK_KEY. -/
def doCheckKey (st : St) (r : Rd) : CmdOut :=
  match wait_for_eoc 2 r with
  | (false, r1) => cmdBad st r1
  | (true, r1) =>
    if st.key_state ≠ 0 then cmdBadKey st r1
    else cmdOk st r1

/-- Dispatch one received opcode byte, exactly as the `switch (c)` of
`bootloader()`.  `inp` supplies the results of every `cin_wait` the command
performs after the opcode. -/
def runCmd (bi : BoardInfo) (dec : List Nat → List Nat → List Nat → List Nat)
    (st : St) (op : Nat) (inp : List (Option Nat)) : CmdOut :=
  if op = 33 then doGetSync st ⟨inp, []⟩
  else if op = 34 then doGetDevice bi st ⟨inp, []⟩
  else if op = 35 then doChipErase bi st ⟨inp, []⟩
  else if op = 39 then doProgMulti bi st ⟨inp, []⟩
  else if op = 41 then doGetCrc bi st ⟨inp, []⟩
  else if op = 42 then doGetOtp bi st ⟨inp, []⟩
  else if op = 43 then doGetSn bi st ⟨inp, []⟩
  else if op = 44 then doGetChip bi st ⟨inp, []⟩
  else if op = 45 then doSetDelay bi st ⟨inp, []⟩
  else if op = 46 then doGetChipDes bi st ⟨inp, []⟩
  else if op = 48 then doBoot st ⟨inp, []⟩
  else if op = 49 then doDebug st ⟨inp, []⟩
  else if op = 54 then doSetIv st ⟨inp, []⟩
  else if op = 55 then doProgMultiEnc bi dec st ⟨inp, []⟩
  else if op = 56 then doCheckCrc bi st ⟨inp, []⟩
  else if op = 57 then doCheckKey st ⟨inp, []⟩
  else cmdSilent st ⟨inp, []⟩

/-- Run a list of commands, each given as opcode byte plus read results;
the session stops at the first command that boots. -/
def runCmds (bi : BoardInfo) (dec : List Nat → List Nat → List Nat → List Nat) :
    St → List (Nat × List (Option Nat)) → St × Bool
  | st, [] => (st, false)
  | st, (op, inp) :: rest =>
    let o := runCmd bi dec st op inp
    if o.booted then (o.st, true) else runCmds bi dec o.st rest

/-- The session state at entry of `bootloader()`: `address` is forced to
`fw_size` so an erase is needed before an upload, no first word is pending,
the encryption bookkeeping is zeroed, the static buffers are
zero-initialized, and `key_state = validate_key()`. -/
def initSt (bi : BoardInfo) (flash : Nat → Nat) (stuck : Nat → Bool) (key : List Nat) : St :=
  { address := bi.fw_size
    first_word := FF
    num_to_flash := 0
    crc32_sum := 0
    iv := List.replicate 16 0
    key_state := validate_key key
    flash_buffer := List.replicate 256 0
    encrypted_buffer := List.replicate 256 0
    flash := flash
    stuck := stuck
    key := key }

/-! Concrete instances used by witnesses and counterexamples: a small board
with a 16-byte firmware region, a trivial single-block decrypt primitive,
erased flash, and an intact (nonzero) key. -/

/-- A concrete board: fw_size 16 bytes, boot-delay signature at offset 8. -/
def bi0 : BoardInfo :=
  { fw_size := 16
    board_type := 9
    board_rev := 0
    otp := fun _ => 0
    sn := fun _ => 0
    mcu_id := 1041
    mcu_desc := []
    boot_delay_addr := 8
    boot_delay_sig1 := 11111
    boot_delay_sig2 := 22222
    boot_delay_max := 30 }

/-- A concrete instance of the external AES block primitive (identity):
any single-block decrypt function is a valid instantiation. -/
def dec0 : List Nat → List Nat → List Nat → List Nat := fun ct _ _ => ct

/-- Fully erased flash. -/
def flashErased : Nat → Nat := fun _ => FF

/-- Flash with no faulty cells. -/
def stuckNone : Nat → Bool := fun _ => false

/-- An intact key region (first word nonzero). -/
def keyGood : List Nat := [3735928559, 0, 0, 0]

/-- A fresh session on the concrete board with healthy erased flash. -/
def st0 : St := initSt bi0 flashErased stuckNone keyGood

/-- `flash_func_write_word` changes at most the `flash` field. -/
theorem flash_func_write_word_shape (st : St) (a w : Nat) :
    ∃ fl, flash_func_write_word st a w = { st with flash := fl } := by
  unfold flash_func_write_word
  split
  · exact ⟨st.flash, rfl⟩
  · exact ⟨_, rfl⟩

/-- Reading back any other cell after a write is unchanged. -/
theorem flash_func_write_word_flash_ne (st : St) (a w x : Nat) (h : x ≠ a) :
    (flash_func_write_word st a w).flash x = st.flash x := by
  unfold flash_func_write_word
  split
  · rfl
  · simp [h]

/-- Reading back the written cell: unchanged when stuck, the new word otherwise. -/
theorem flash_func_write_word_flash_self (st : St) (a w : Nat) :
    (flash_func_write_word st a w).flash a =
      if st.stuck a then st.flash a else w := by
  unfold flash_func_write_word
  split <;> simp_all

/-- The programming loop changes at most `flash` and `address`. -/
theorem writeWords_shape (st : St) (ws : List Nat) :
    ∃ fl a, (writeWords st ws).1 = { st with flash := fl, address := a } := by
  induction ws generalizing st with
  | nil => exact ⟨st.flash, st.address, rfl⟩
  | cons w ws ih =>
    unfold writeWords
    obtain ⟨fl0, h0⟩ := flash_func_write_word_shape st st.address w
    simp only [h0]
    split
    · exact ⟨fl0, st.address, rfl⟩
    · obtain ⟨fl, a, h⟩ := ih { st with flash := fl0, address := (st.address + 4) % M32 }
      rw [h]
      exact ⟨fl, a, rfl⟩

/-- Upper bound on the address after a programming loop (no uint32 wrap in
range). -/
theorem writeWords_address_le (ws : List Nat) (st : St)
    (hb : st.address + 4 * ws.length < M32) :
    (writeWords st ws).1.address ≤ st.address + 4 * ws.length := by
  induction ws generalizing st with
  | nil => exact Nat.le_refl _
  | cons w ws ih =>
    simp only [List.length_cons] at hb ⊢
    unfold writeWords
    obtain ⟨fl0, h0⟩ := flash_func_write_word_shape st st.address w
    have h4 : (st.address + 4) % M32 = st.address + 4 := Nat.mod_eq_of_lt (by omega)
    simp only [h0, h4]
    split
    · show st.address ≤ st.address + 4 * (ws.length + 1)
      omega
    · have hres := ih { st with flash := fl0, address := st.address + 4 }
        (show st.address + 4 + 4 * ws.length < M32 by omega)
      exact Nat.le_trans hres (show st.address + 4 + 4 * ws.length ≤ st.address + 4 * (ws.length + 1) by omega)

/-- A fully successful programming loop advances the address by exactly
4 bytes per word. -/
theorem writeWords_address_ok (ws : List Nat) (st : St)
    (hb : st.address + 4 * ws.length < M32)
    (h : (writeWords st ws).2 = true) :
    (writeWords st ws).1.address = st.address + 4 * ws.length := by
  induction ws generalizing st with
  | nil => rfl
  | cons w ws ih =>
    simp only [List.length_cons] at hb ⊢
    unfold writeWords at h ⊢
    obtain ⟨fl0, h0⟩ := flash_func_write_word_shape st st.address w
    have h4 : (st.address + 4) % M32 = st.address + 4 := Nat.mod_eq_of_lt (by omega)
    simp only [h0, h4] at h ⊢
    split at h
    · exact absurd h (by simp)
    · rename_i hv
      rw [if_neg hv]
      have hres := ih { st with flash := fl0, address := st.address + 4 }
        (show st.address + 4 + 4 * ws.length < M32 by omega) h
      rw [hres]
      show st.address + 4 + 4 * ws.length = st.address + 4 * (ws.length + 1)
      omega

/-- Programming at a nonzero address never touches flash word 0. -/
theorem writeWords_flash_zero_pos (ws : List Nat) (st : St)
    (ha : st.address ≠ 0) (hb : st.address + 4 * ws.length < M32)
    (hf : st.flash 0 = FF) :
    (writeWords st ws).1.flash 0 = FF := by
  induction ws generalizing st with
  | nil => exact hf
  | cons w ws ih =>
    simp only [List.length_cons] at hb
    unfold writeWords
    obtain ⟨fl0, h0⟩ := flash_func_write_word_shape st st.address w
    have hw : (flash_func_write_word st st.address w).flash 0 = FF := by
      rw [flash_func_write_word_flash_ne st st.address w 0 (by omega)]
      exact hf
    rw [h0] at hw
    have h4 : (st.address + 4) % M32 = st.address + 4 := Nat.mod_eq_of_lt (by omega)
    simp only [h0, h4]
    split
    · exact hw
    · exact ih { st with flash := fl0, address := st.address + 4 }
        (by show st.address + 4 ≠ 0; omega)
        (show st.address + 4 + 4 * ws.length < M32 by omega) hw

/-- Programming at address 0 with the deferral substitution in place (the
first word of the list is 0xFFFFFFFF) keeps flash word 0 erased. -/
theorem writeWords_flash_zero_head (t : List Nat) (st : St)
    (ha : st.address = 0) (hb : 4 + 4 * t.length < M32)
    (hf : st.flash 0 = FF) :
    (writeWords st (FF :: t)).1.flash 0 = FF := by
  unfold writeWords
  obtain ⟨fl0, h0⟩ := flash_func_write_word_shape st st.address FF
  have hw : (flash_func_write_word st st.address FF).flash 0 = FF := by
    rw [ha, flash_func_write_word_flash_self]
    split
    · exact hf
    · rfl
  rw [h0] at hw
  have h4 : (st.address + 4) % M32 = st.address + 4 :=
    Nat.mod_eq_of_lt (by rw [ha]; omega)
  simp only [h0, h4]
  have hrd : flash_func_read_word { st with flash := fl0 } st.address = FF := by
    show fl0 st.address = FF
    rw [ha]
    exact hw
  rw [if_neg (by rw [hrd]; simp)]
  exact writeWords_flash_zero_pos t { st with flash := fl0, address := st.address + 4 }
    (by show st.address + 4 ≠ 0; omega)
    (by show st.address + 4 + 4 * t.length < M32; rw [ha]; omega) hw

/-- Reading inside the stored slice of `overwriteAt`. -/
theorem getD_overwriteAt (b xs : List Nat) (i k : Nat)
    (hi : i ≤ b.length) (hk : k < xs.length) :
    (overwriteAt b i xs).getD (i + k) 0 = xs.getD k 0 := by
  have hlen : (b.take i).length = i := by
    simp [List.length_take, Nat.min_eq_left hi]
  unfold overwriteAt
  rw [List.append_assoc, List.getD_append_right (b.take i) _ 0 (i + k) (by rw [hlen]; omega)]
  rw [hlen]
  have hik : i + k - i = k := by omega
  rw [hik, List.getD_append _ _ 0 k hk]

/-- Storing 0xFFFFFFFF over word `i` of a buffer makes word `i` read
0xFFFFFFFF. -/
theorem bufWord_bufSetWord (b : List Nat) (i : Nat) (h : 4 * i ≤ b.length) :
    bufWord (bufSetWord b i FF) i = FF := by
  have hFF : wordBytes FF = [255, 255, 255, 255] := by decide
  unfold bufWord bufSetWord
  rw [hFF]
  have g0 := getD_overwriteAt b [255, 255, 255, 255] (4 * i) 0 h (by decide)
  have g1 := getD_overwriteAt b [255, 255, 255, 255] (4 * i) 1 h (by decide)
  have g2 := getD_overwriteAt b [255, 255, 255, 255] (4 * i) 2 h (by decide)
  have g3 := getD_overwriteAt b [255, 255, 255, 255] (4 * i) 3 h (by decide)
  simp only [Nat.add_zero] at g0
  rw [g0, g1, g2, g3]
  decide

/-- A fully supplied payload read: consumes exactly `bs` and succeeds. -/
theorem readBytes_complete (t : Nat) (bs : List Nat) (rest : List (Option Nat)) (dls : List Nat) :
    readBytes t bs.length ⟨bs.map some ++ rest, dls⟩ =
      (bs.map (fun b => b % 256), true, ⟨rest, dls ++ List.replicate bs.length t⟩) := by
  induction bs generalizing dls with
  | nil => simp [readBytes]
  | cons b bs ih =>
    simp only [List.length_cons, List.map_cons, List.cons_append]
    unfold readBytes
    simp only [cin_wait, Option.map]
    rw [ih]
    simp [List.replicate_succ, List.append_assoc]

/-- The payload loop stores at most `k` bytes. -/
theorem readBytes_length_le (t k : Nat) (r : Rd) :
    (readBytes t k r).1.length ≤ k := by
  induction k generalizing r with
  | zero => exact Nat.le_refl _
  | succ k ih =>
    unfold readBytes
    match h : cin_wait t r with
    | (none, r1) => simp
    | (some b, r1) =>
      simp only []
      match h2 : readBytes t k r1 with
      | (bs, ok, r2) =>
        have := ih r1
        rw [h2] at this
        simpa using Nat.succ_le_succ this

/-- Bytes returned by `cin_wait` are 8-bit. -/
theorem cin_wait_lt_256 (t : Nat) (r : Rd) (b : Nat)
    (h : (cin_wait t r).1 = some b) : b < 256 := by
  obtain ⟨inp, dls⟩ := r
  match inp with
  | [] => simp [cin_wait] at h
  | none :: rest => simp [cin_wait] at h
  | some v :: rest =>
    simp [cin_wait] at h
    omega

/-- The erase verify sweep succeeds iff every scanned word reads erased. -/
theorem eraseVerify_eq_none_iff (read : Nat → Nat) (n p0 : Nat) :
    eraseVerify read n p0 = none ↔ ∀ k < n, read (p0 + 4 * k) = FF := by
  induction n generalizing p0 with
  | zero => simp [eraseVerify]
  | succ n ih =>
    unfold eraseVerify
    split
    · rename_i hr
      constructor
      · intro hc
        exact absurd hc (Option.some_ne_none _)
      · intro hall
        exact absurd (by simpa using hall 0 (Nat.succ_pos n)) hr
    · rename_i hr
      rw [not_not] at hr
      rw [ih (p0 + 4)]
      constructor
      · intro hall k hk
        match k with
        | 0 => simpa using hr
        | k + 1 =>
          have := hall k (by omega)
          rw [show p0 + 4 + 4 * k = p0 + 4 * (k + 1) by omega] at this
          exact this
      · intro hall k hk
        have := hall (k + 1) (by omega)
        rw [show p0 + 4 * (k + 1) = p0 + 4 + 4 * k by omega] at this
        exact this

/-- A failing erase verify stops strictly inside the scanned range. -/
theorem eraseVerify_some_lt (read : Nat → Nat) (n p0 p : Nat)
    (h : eraseVerify read n p0 = some p) : p < p0 + 4 * n := by
  induction n generalizing p0 with
  | zero => simp [eraseVerify] at h
  | succ n ih =>
    unfold eraseVerify at h
    split at h
    · simp at h
      omega
    · have := ih (p0 + 4) h
      omega

/-- `zero_key` leaves every word of the key region zero. -/
theorem zero_key_key (st : St) :
    (zero_key st).key = st.key.map (fun _ => 0) := by
  unfold zero_key
  show st.key.map _ = _
  induction st.key with
  | nil => rfl
  | cons w ws ih =>
    simp only [List.map_cons, ih]
    congr 1
    split <;> omega

/-- GET_SYNC never changes the session state. -/
theorem doGetSync_st (st : St) (r : Rd) : (doGetSync st r).st = st := by
  unfold doGetSync
  split <;> rfl

/-- GET_DEVICE never changes the session state. -/
theorem doGetDevice_st (bi : BoardInfo) (st : St) (r : Rd) :
    (doGetDevice bi st r).st = st := by
  unfold doGetDevice
  split
  · rfl
  · split
    · rfl
    · split <;> first | rfl | (split <;> first | rfl | (split <;> first | rfl | (split <;> first | rfl | (split <;> rfl))))

/-- GET_CRC never changes the session state. -/
theorem doGetCrc_st (bi : BoardInfo) (st : St) (r : Rd) :
    (doGetCrc bi st r).st = st := by
  unfold doGetCrc
  split <;> rfl

/-- GET_OTP never changes the session state. -/
theorem doGetOtp_st (bi : BoardInfo) (st : St) (r : Rd) :
    (doGetOtp bi st r).st = st := by
  unfold doGetOtp
  split
  · rfl
  · split <;> rfl

/-- GET_SN never changes the session state. -/
theorem doGetSn_st (bi : BoardInfo) (st : St) (r : Rd) :
    (doGetSn bi st r).st = st := by
  unfold doGetSn
  split
  · rfl
  · split <;> rfl

/-- GET_CHIP never changes the session state. -/
theorem doGetChip_st (bi : BoardInfo) (st : St) (r : Rd) :
    (doGetChip bi st r).st = st := by
  unfold doGetChip
  split <;> rfl

/-- GET_CHIP_DES never changes the session state. -/
theorem doGetChipDes_st (bi : BoardInfo) (st : St) (r : Rd) :
    (doGetChipDes bi st r).st = st := by
  unfold doGetChipDes
  split <;> rfl

/-- DEBUG never changes the session state. -/
theorem doDebug_st (st : St) (r : Rd) : (doDebug st r).st = st := rfl

/-- CHECK_CRC never changes the session state. -/
theorem doCheckCrc_st (bi : BoardInfo) (st : St) (r : Rd) :
    (doCheckCrc bi st r).st = st := by
  unfold doCheckCrc
  split
  · rfl
  · split
    · rfl
    · dsimp only
      split <;> rfl

/-- CHECK_KEY never changes the session state. -/
theorem doCheckKey_st (st : St) (r : Rd) : (doCheckKey st r).st = st := by
  unfold doCheckKey
  split
  · rfl
  · split <;> rfl

/-- SET_IV changes at most the `iv` field. -/
theorem doSetIv_shape (st : St) (r : Rd) :
    ∃ ivN, (doSetIv st r).st = { st with iv := ivN } := by
  unfold doSetIv
  split
  · exact ⟨_, rfl⟩
  · split <;> exact ⟨_, rfl⟩

/-- CHIP_ERASE changes at most `flash` and `address`. -/
theorem doChipErase_shape (bi : BoardInfo) (st : St) (r : Rd) :
    ∃ fl a, (doChipErase bi st r).st = { st with flash := fl, address := a } := by
  unfold doChipErase
  split
  · exact ⟨st.flash, st.address, rfl⟩
  · dsimp only
    split <;> exact ⟨_, _, rfl⟩

/-- The write-then-verify tail shared by SET_DELAY and BOOT changes at most
`flash`. -/
theorem writeVerify_shape (st : St) (a w : Nat) (r : Rd) :
    ∃ fl, (if flash_func_read_word (flash_func_write_word st a w) a ≠ w
        then cmdFail (flash_func_write_word st a w) r
        else cmdOk (flash_func_write_word st a w) r).st = { st with flash := fl } := by
  obtain ⟨fl, hw⟩ := flash_func_write_word_shape st a w
  rw [hw]
  split <;> exact ⟨fl, rfl⟩

/-- SET_DELAY changes at most `flash`. -/
theorem doSetDelay_shape (bi : BoardInfo) (st : St) (r : Rd) :
    ∃ fl, (doSetDelay bi st r).st = { st with flash := fl } := by
  unfold doSetDelay
  split
  · exact ⟨st.flash, rfl⟩
  · split
    · exact ⟨st.flash, rfl⟩
    · split
      · exact ⟨st.flash, rfl⟩
      · split
        · exact ⟨st.flash, rfl⟩
        · dsimp only
          exact writeVerify_shape st bi.boot_delay_addr _ _

/-- BOOT changes at most `flash` and `first_word`. -/
theorem doBoot_shape (st : St) (r : Rd) :
    ∃ fl fw, (doBoot st r).st = { st with flash := fl, first_word := fw } := by
  unfold doBoot
  split
  · exact ⟨st.flash, st.first_word, rfl⟩
  · split
    · dsimp only
      obtain ⟨fl, hw⟩ := flash_func_write_word_shape st 0 st.first_word
      rw [hw]
      split
      · exact ⟨fl, st.first_word, rfl⟩
      · exact ⟨fl, FF, rfl⟩
    · exact ⟨st.flash, st.first_word, rfl⟩

/-- The programming loop leaves `first_word` unchanged. -/
theorem writeWords_first_word (st : St) (ws : List Nat) :
    (writeWords st ws).1.first_word = st.first_word := by
  obtain ⟨fl, a, h⟩ := writeWords_shape st ws
  rw [h]

/-- The programming loop leaves the key region unchanged. -/
theorem writeWords_key (st : St) (ws : List Nat) :
    (writeWords st ws).1.key = st.key := by
  obtain ⟨fl, a, h⟩ := writeWords_shape st ws
  rw [h]

/-- The programming loop leaves the scratch buffer unchanged. -/
theorem writeWords_flash_buffer (st : St) (ws : List Nat) :
    (writeWords st ws).1.flash_buffer = st.flash_buffer := by
  obtain ⟨fl, a, h⟩ := writeWords_shape st ws
  rw [h]

/-- The programming loop leaves `num_to_flash` unchanged. -/
theorem writeWords_num_to_flash (st : St) (ws : List Nat) :
    (writeWords st ws).1.num_to_flash = st.num_to_flash := by
  obtain ⟨fl, a, h⟩ := writeWords_shape st ws
  rw [h]

/-- The programming loop leaves `crc32_sum` unchanged. -/
theorem writeWords_crc32_sum (st : St) (ws : List Nat) :
    (writeWords st ws).1.crc32_sum = st.crc32_sum := by
  obtain ⟨fl, a, h⟩ := writeWords_shape st ws
  rw [h]

/-- The state after a programming command's exit is the state of the loop. -/
theorem progTail_st (st2 : St) (ws : List Nat) (r : Rd) :
    (progTail st2 ws r).st = (writeWords st2 ws).1 := by
  unfold progTail
  rcases h : writeWords st2 ws with ⟨st3, b⟩
  cases b <;> rfl

/-- A programming command's exit replies OK on full success, FAILED on a
verify mismatch. -/
theorem progTail_reply (st2 : St) (ws : List Nat) (r : Rd) :
    (progTail st2 ws r).reply =
      some (if (writeWords st2 ws).2 = true then Status.ok else Status.failed) := by
  unfold progTail
  rcases h : writeWords st2 ws with ⟨st3, b⟩
  cases b <;> rfl

/-- A programming command's exit never boots. -/
theorem progTail_booted (st2 : St) (ws : List Nat) (r : Rd) :
    (progTail st2 ws r).booted = false := by
  unfold progTail
  rcases h : writeWords st2 ws with ⟨st3, b⟩
  cases b <;> rfl

/-- A programming command's exit keeps the deadline trace of its reads. -/
theorem progTail_dls (st2 : St) (ws : List Nat) (r : Rd) :
    (progTail st2 ws r).dls = r.dls := by
  unfold progTail
  rcases h : writeWords st2 ws with ⟨st3, b⟩
  cases b <;> rfl

/-- A programming command's exit never replies INVALID. -/
theorem progTail_reply_ne_invalid (st2 : St) (ws : List Nat) (r : Rd) :
    (progTail st2 ws r).reply ≠ some Status.invalid := by
  rw [progTail_reply]
  split <;> simp

/-- A programming command's exit never replies BAD_KEY. -/
theorem progTail_reply_ne_badKey (st2 : St) (ws : List Nat) (r : Rd) :
    (progTail st2 ws r).reply ≠ some Status.badKey := by
  rw [progTail_reply]
  split <;> simp

/-- PROG_MULTI either leaves the key region alone or zeroes it. -/
theorem doProgMulti_key (bi : BoardInfo) (st : St) (r : Rd) :
    (doProgMulti bi st r).st.key = st.key ∨
      (doProgMulti bi st r).st.key = st.key.map (fun _ => 0) := by
  unfold doProgMulti
  split
  · exact Or.inl rfl
  · split
    · exact Or.inl rfl
    · split
      · exact Or.inl rfl
      · split
        · exact Or.inl rfl
        · split
          · exact Or.inl rfl
          · try dsimp only
            split
            · exact Or.inl rfl
            · rw [progTail_st, writeWords_key]
              try dsimp only
              split
              · rw [zero_key_key]
                try dsimp only
                exact Or.inr rfl
              · exact Or.inl rfl

/-- A PROG_MULTI that replies INVALID leaves `address` and `first_word`
unchanged. -/
theorem doProgMulti_invalid (bi : BoardInfo) (st : St) (r : Rd) :
    (doProgMulti bi st r).reply = some Status.invalid →
      (doProgMulti bi st r).st.address = st.address ∧
        (doProgMulti bi st r).st.first_word = st.first_word := by
  unfold doProgMulti
  split
  · intro _; exact ⟨rfl, rfl⟩
  · split
    · intro _; exact ⟨rfl, rfl⟩
    · split
      · intro _; exact ⟨rfl, rfl⟩
      · split
        · intro _; exact ⟨rfl, rfl⟩
        · split
          · intro _; exact ⟨rfl, rfl⟩
          · try dsimp only
            split
            · intro _; exact ⟨rfl, rfl⟩
            · intro h
              exact absurd h (progTail_reply_ne_invalid _ _ _)

/-- When the word range is nonempty, the first word fed to the loop is word
`s` of the buffer. -/
theorem progWords_cons (buf : List Nat) (s n : Nat) (h : s < n) :
    ∃ t, progWords buf s n = bufWord buf s :: t ∧ t.length = n - s - 1 := by
  unfold progWords
  have hlen : ((List.range n).drop s).length = n - s := by simp
  match hd : (List.range n).drop s with
  | [] =>
    rw [hd] at hlen
    simp at hlen
    omega
  | x :: xs =>
    have hx : x = s := by
      have hh : ((List.range n).drop s).head? = some x := by rw [hd]; rfl
      rw [List.head?_drop] at hh
      simp [h] at hh
      omega
    rw [hx]
    refine ⟨xs.map (bufWord buf), rfl, ?_⟩
    rw [hd] at hlen
    simp only [List.length_cons] at hlen
    simp only [List.length_map]
    omega

/-- The bound `a + g ≤ f` recovered from the uint32 size guard, in the
realistic range where the addition cannot wrap. -/
theorem addr_guard (a g f : Nat) (h : ¬ (a + g) % M32 > f)
    (ha : a ≤ f) (hg : g ≤ 256) (hfw : f + 260 < M32) : a + g ≤ f := by
  rw [Nat.mod_eq_of_lt (by omega)] at h
  omega

/-- Overwriting a slice inside the buffer keeps its length. -/
theorem overwriteAt_length (b xs : List Nat) (i : Nat) (h : i + xs.length ≤ b.length) :
    (overwriteAt b i xs).length = b.length := by
  unfold overwriteAt
  simp only [List.length_append, List.length_take, List.length_drop]
  omega

/-- The word list fed to a programming loop has `cnt - start` entries. -/
theorem progWords_length (buf : List Nat) (start cnt : Nat) :
    (progWords buf start cnt).length = cnt - start := by
  unfold progWords
  simp

/-- The programming loop keeps flash word 0 erased and the address within
the firmware region, given the size guard and the first-word substitution. -/
theorem writeWords_inv (st2 : St) (ws : List Nat) (bi : BoardInfo)
    (hf : st2.flash 0 = FF)
    (hb : st2.address + 4 * ws.length ≤ bi.fw_size)
    (hfw : bi.fw_size + 260 < M32)
    (hz : st2.address = 0 → ws = [] ∨ ∃ t, ws = FF :: t) :
    (writeWords st2 ws).1.flash 0 = FF ∧ (writeWords st2 ws).1.address ≤ bi.fw_size := by
  have hlt : st2.address + 4 * ws.length < M32 := by omega
  constructor
  · by_cases h0 : st2.address = 0
    · rcases hz h0 with hnil | ⟨t, hcons⟩
      · subst hnil
        exact hf
      · subst hcons
        exact writeWords_flash_zero_head t st2 h0
          (by simp only [List.length_cons] at hlt; omega) hf
    · exact writeWords_flash_zero_pos ws st2 h0 hlt hf
  · exact Nat.le_trans (writeWords_address_le ws st2 hlt) (by omega)

/-- PROG_MULTI preserves the session invariant: flash word 0 stays erased,
the address stays inside the firmware region, the scratch buffer keeps its
size. -/
theorem doProgMulti_inv (bi : BoardInfo) (st : St) (r : Rd)
    (hf : st.flash 0 = FF) (ha : st.address ≤ bi.fw_size)
    (hbuf : st.flash_buffer.length = 256) (hfw : bi.fw_size + 260 < M32) :
    (doProgMulti bi st r).st.flash 0 = FF ∧
      (doProgMulti bi st r).st.address ≤ bi.fw_size ∧
      (doProgMulti bi st r).st.flash_buffer.length = 256 := by
  have hM : M32 = 4294967296 := rfl
  unfold doProgMulti
  split
  · exact ⟨hf, ha, hbuf⟩
  · rename_i p arg r1 heq1
    have harg : arg < 256 := cin_wait_lt_256 50 r arg (by rw [heq1])
    split
    · exact ⟨hf, ha, hbuf⟩
    · rename_i hmod
      split
      · exact ⟨hf, ha, hbuf⟩
      · rename_i hsize
        split
        · exact ⟨hf, ha, hbuf⟩
        · rename_i hlen
          have hsz : st.address + arg ≤ bi.fw_size :=
            addr_guard _ _ _ hsize ha (by omega) hfw
          split
          · rename_i q bs r2 heq2
            have hbs : bs.length ≤ arg := by
              have hh := readBytes_length_le 1000 arg r1
              rw [heq2] at hh
              simpa using hh
            refine ⟨hf, ha, ?_⟩
            show (overwriteAt st.flash_buffer 0 bs).length = 256
            rw [overwriteAt_length _ _ _ (by rw [hbuf]; omega)]
            exact hbuf
          · rename_i q bs r2 heq2
            have hbs : bs.length ≤ arg := by
              have hh := readBytes_length_le 1000 arg r1
              rw [heq2] at hh
              simpa using hh
            have hb1 : (overwriteAt st.flash_buffer 0 bs).length = 256 := by
              rw [overwriteAt_length _ _ _ (by rw [hbuf]; omega)]
              exact hbuf
            split
            · exact ⟨hf, ha, hb1⟩
            · rename_i r3 heq3
              rw [progTail_st]
              split
              · rename_i h0
                dsimp only [zero_key]
                have h00 : st.address = 0 := h0
                have hb2 : (bufSetWord (overwriteAt st.flash_buffer 0 bs) 0 FF).length = 256 := by
                  show (overwriteAt (overwriteAt st.flash_buffer 0 bs) 0 (wordBytes FF)).length = 256
                  rw [overwriteAt_length _ _ _ (by rw [hb1]; decide)]
                  exact hb1
                have hww := writeWords_inv { st with first_word := bufWord (overwriteAt st.flash_buffer 0 bs) 0, flash_buffer := bufSetWord (overwriteAt st.flash_buffer 0 bs) 0 FF, key := st.key.map (fun w => if w ≠ 0 then 0 else w) } (progWords (bufSetWord (overwriteAt st.flash_buffer 0 bs) 0 FF) 0 (arg / 4)) bi
                  (by exact hf)
                  (by rw [progWords_length]
                      show st.address + 4 * (arg / 4 - 0) ≤ bi.fw_size
                      omega)
                  hfw
                  (by intro _
                      rcases Nat.eq_zero_or_pos (arg / 4) with h40 | h4p
                      · left
                        simp [progWords, h40]
                      · right
                        obtain ⟨t, hcons, htl⟩ := progWords_cons (bufSetWord (overwriteAt st.flash_buffer 0 bs) 0 FF) 0 (arg / 4) h4p
                        refine ⟨t, ?_⟩
                        rw [hcons, bufWord_bufSetWord _ 0 (by rw [hb1]; omega)])
                refine ⟨hww.1, hww.2, ?_⟩
                rw [writeWords_flash_buffer]
                exact hb2
              · rename_i h0
                dsimp only
                have hww := writeWords_inv { st with flash_buffer := overwriteAt st.flash_buffer 0 bs } (progWords (overwriteAt st.flash_buffer 0 bs) 0 (arg / 4)) bi
                  (by exact hf)
                  (by rw [progWords_length]
                      show st.address + 4 * (arg / 4 - 0) ≤ bi.fw_size
                      omega)
                  hfw
                  (fun hh => absurd hh h0)
                refine ⟨hww.1, hww.2, ?_⟩
                rw [writeWords_flash_buffer]
                exact hb1

/-- A padded block always has 16 bytes. -/
theorem padTo16_length (l : List Nat) : (padTo16 l).length = 16 := by
  unfold padTo16
  simp

/-- The decryption loop writes in place: the plaintext buffer keeps its
length. -/
theorem decLoop_length (dec : List Nat → List Nat → List Nat → List Nat)
    (kb : List Nat) (n : Nat) :
    ∀ (i : Nat) (fb eb iv : List Nat), i + 16 * n ≤ fb.length →
      ((decLoop dec kb n i fb eb iv).1).length = fb.length := by
  induction n with
  | zero => intro i fb eb iv h; rfl
  | succ n ih =>
    intro i fb eb iv h
    unfold decLoop
    dsimp only
    rw [ih (i + 16) _ _ _ (by rw [overwriteAt_length _ _ _ (by rw [padTo16_length]; omega)]; omega)]
    exact overwriteAt_length _ _ _ (by rw [padTo16_length]; omega)

/-- PROG_MULTI_ENCRYPTED never touches the key region. -/
theorem doProgMultiEnc_key (bi : BoardInfo)
    (dec : List Nat → List Nat → List Nat → List Nat) (st : St) (r : Rd) :
    (doProgMultiEnc bi dec st r).st.key = st.key := by
  unfold doProgMultiEnc
  split
  · rfl
  · split
    · rfl
    · split
      · rfl
      · split
        · rfl
        · split
          · rfl
          · try dsimp only
            split
            · rfl
            · split
              · rfl
              · split
                · try dsimp only
                  split_ifs with h0 hnf
                  · rfl
                  · rw [progTail_st, writeWords_key]
                  · rfl
                  · rw [progTail_st, writeWords_key]
                · rfl

/-- A PROG_MULTI_ENCRYPTED that replies INVALID leaves `address` and
`first_word` unchanged. -/
theorem doProgMultiEnc_invalid (bi : BoardInfo)
    (dec : List Nat → List Nat → List Nat → List Nat) (st : St) (r : Rd) :
    (doProgMultiEnc bi dec st r).reply = some Status.invalid →
      (doProgMultiEnc bi dec st r).st.address = st.address ∧
        (doProgMultiEnc bi dec st r).st.first_word = st.first_word := by
  unfold doProgMultiEnc
  split
  · intro _; exact ⟨rfl, rfl⟩
  · split
    · intro _; exact ⟨rfl, rfl⟩
    · split
      · intro _; exact ⟨rfl, rfl⟩
      · split
        · intro _; exact ⟨rfl, rfl⟩
        · split
          · intro _; exact ⟨rfl, rfl⟩
          · try dsimp only
            split
            · intro _; exact ⟨rfl, rfl⟩
            · split
              · intro h; simp [cmdBadKey] at h
              · split
                · try dsimp only
                  split_ifs with h0 hnf
                  · intro h; simp [cmdFail] at h
                  · intro h
                    exact absurd h (progTail_reply_ne_invalid _ _ _)
                  · intro h; simp [cmdFail] at h
                  · intro h
                    exact absurd h (progTail_reply_ne_invalid _ _ _)
                · intro _; exact ⟨rfl, rfl⟩

/-- An empty word range gives an empty programming list. -/
theorem progWords_nil (buf : List Nat) (start cnt : Nat) (h : cnt ≤ start) :
    progWords buf start cnt = [] := by
  unfold progWords
  rw [List.drop_eq_nil_of_le (by simpa using h)]
  rfl

/-- PROG_MULTI_ENCRYPTED preserves the session invariant. -/
theorem doProgMultiEnc_inv (bi : BoardInfo)
    (dec : List Nat → List Nat → List Nat → List Nat) (st : St) (r : Rd)
    (hf : st.flash 0 = FF) (ha : st.address ≤ bi.fw_size)
    (hbuf : st.flash_buffer.length = 256) (hfw : bi.fw_size + 260 < M32) :
    (doProgMultiEnc bi dec st r).st.flash 0 = FF ∧
      (doProgMultiEnc bi dec st r).st.address ≤ bi.fw_size ∧
      (doProgMultiEnc bi dec st r).st.flash_buffer.length = 256 := by
  have hM : M32 = 4294967296 := rfl
  unfold doProgMultiEnc
  split
  case h_1 => exact ⟨hf, ha, hbuf⟩
  case h_2 p arg r1 heq1 =>
    have harg : arg < 256 := cin_wait_lt_256 50 r arg (by rw [heq1])
    split
    case isTrue => exact ⟨hf, ha, hbuf⟩
    case isFalse hmod =>
      split
      case isTrue => exact ⟨hf, ha, hbuf⟩
      case isFalse hsize =>
        split
        case isTrue => exact ⟨hf, ha, hbuf⟩
        case isFalse hlen =>
          have hsz : st.address + arg ≤ bi.fw_size :=
            addr_guard _ _ _ hsize ha (by omega) hfw
          split
          case h_1 => exact ⟨hf, ha, hbuf⟩
          case h_2 q bs r2 heq2 =>
            split
            case h_1 => exact ⟨hf, ha, hbuf⟩
            case h_2 e r3 heq3 =>
              dsimp only
              split
              case isTrue => exact ⟨hf, ha, hbuf⟩
              case isFalse hkey =>
                split
                case isFalse => exact ⟨hf, ha, hbuf⟩
                case isTrue h16 =>
                  try dsimp only
                  have hD : (decLoop dec (keyBytes st.key) (arg / 16) 0 st.flash_buffer (overwriteAt st.encrypted_buffer 0 bs) st.iv).1.length = 256 := by
                    rw [decLoop_length dec (keyBytes st.key) (arg / 16) 0 st.flash_buffer _ st.iv (by rw [hbuf]; omega)]
                    exact hbuf
                  split_ifs with h0 hnf
                  · exact ⟨hf, ha, by
                      show (overwriteAt (decLoop dec (keyBytes st.key) (arg / 16) 0 st.flash_buffer (overwriteAt st.encrypted_buffer 0 bs) st.iv).1 (4 * 4) (wordBytes FF)).length = 256
                      rw [overwriteAt_length _ _ _ (by rw [hD]; decide)]
                      exact hD⟩
                  · rw [progTail_st]
                    refine ⟨(writeWords_inv _ _ bi ?f1 ?b1 hfw ?z1).1,
                      (writeWords_inv _ _ bi ?f2 ?b2 hfw ?z2).2, ?bu⟩
                    case f1 => exact hf
                    case f2 => exact hf
                    case b1 =>
                      rw [progWords_length]
                      show st.address + 4 * (arg / 4 - 4) ≤ bi.fw_size
                      omega
                    case b2 =>
                      rw [progWords_length]
                      show st.address + 4 * (arg / 4 - 4) ≤ bi.fw_size
                      omega
                    case z1 =>
                      intro _
                      rcases le_or_lt (arg / 4) 4 with h44 | h44
                      · left
                        exact progWords_nil _ 4 _ h44
                      · right
                        obtain ⟨t, hcons, htl⟩ := progWords_cons (bufSetWord (decLoop dec (keyBytes st.key) (arg / 16) 0 st.flash_buffer (overwriteAt st.encrypted_buffer 0 bs) st.iv).1 4 FF) 4 (arg / 4) h44
                        refine ⟨t, ?_⟩
                        rw [hcons, bufWord_bufSetWord _ 4 (by rw [hD]; omega)]
                    case z2 =>
                      intro _
                      rcases le_or_lt (arg / 4) 4 with h44 | h44
                      · left
                        exact progWords_nil _ 4 _ h44
                      · right
                        obtain ⟨t, hcons, htl⟩ := progWords_cons (bufSetWord (decLoop dec (keyBytes st.key) (arg / 16) 0 st.flash_buffer (overwriteAt st.encrypted_buffer 0 bs) st.iv).1 4 FF) 4 (arg / 4) h44
                        refine ⟨t, ?_⟩
                        rw [hcons, bufWord_bufSetWord _ 4 (by rw [hD]; omega)]
                    case bu =>
                      rw [writeWords_flash_buffer]
                      show (overwriteAt (decLoop dec (keyBytes st.key) (arg / 16) 0 st.flash_buffer (overwriteAt st.encrypted_buffer 0 bs) st.iv).1 (4 * 4) (wordBytes FF)).length = 256
                      rw [overwriteAt_length _ _ _ (by rw [hD]; decide)]
                      exact hD
                  · exact ⟨hf, ha, hD⟩
                  · rw [progTail_st]
                    refine ⟨(writeWords_inv _ _ bi ?g1 ?c1 hfw ?y1).1,
                      (writeWords_inv _ _ bi ?g2 ?c2 hfw ?y2).2, ?bv⟩
                    case g1 => exact hf
                    case g2 => exact hf
                    case c1 =>
                      rw [progWords_length]
                      show st.address + 4 * (arg / 4 - 0) ≤ bi.fw_size
                      omega
                    case c2 =>
                      rw [progWords_length]
                      show st.address + 4 * (arg / 4 - 0) ≤ bi.fw_size
                      omega
                    case y1 => exact fun hh => absurd hh h0
                    case y2 => exact fun hh => absurd hh h0
                    case bv =>
                      rw [writeWords_flash_buffer]
                      exact hD

/-- A failing erase verify stops at offset `4k` inside the scanned range. -/
theorem eraseVerify_some_bound (read : Nat → Nat) (n p0 p : Nat)
    (h : eraseVerify read n p0 = some p) : ∃ k, k < n ∧ p = p0 + 4 * k := by
  induction n generalizing p0 with
  | zero => simp [eraseVerify] at h
  | succ n ih =>
    unfold eraseVerify at h
    split at h
    · simp at h
      exact ⟨0, Nat.succ_pos n, by omega⟩
    · obtain ⟨k, hk, hpk⟩ := ih (p0 + 4) h
      exact ⟨k + 1, by omega, by omega⟩

/-- CHIP_ERASE preserves the session invariant. -/
theorem doChipErase_inv (bi : BoardInfo) (st : St) (r : Rd)
    (hf : st.flash 0 = FF) (ha : st.address ≤ bi.fw_size)
    (hbuf : st.flash_buffer.length = 256) :
    (doChipErase bi st r).st.flash 0 = FF ∧
      (doChipErase bi st r).st.address ≤ bi.fw_size ∧
      (doChipErase bi st r).st.flash_buffer.length = 256 := by
  have hge : (eraseAllSectors st).flash 0 = FF := by
    show (if st.stuck 0 then st.flash 0 else FF) = FF
    split
    · exact hf
    · rfl
  unfold doChipErase
  split
  case h_1 => exact ⟨hf, ha, hbuf⟩
  case h_2 e r1 heq1 =>
    dsimp only
    split
    case h_1 p heqv =>
      refine ⟨hge, ?_, hbuf⟩
      obtain ⟨k, hk, hpk⟩ := eraseVerify_some_bound _ _ _ _ heqv
      show p ≤ bi.fw_size
      omega
    case h_2 heqv => exact ⟨hge, Nat.zero_le _, hbuf⟩

/-- CHIP_ERASE replies INVALID only without touching the state. -/
theorem doChipErase_invalid (bi : BoardInfo) (st : St) (r : Rd) :
    (doChipErase bi st r).reply = some Status.invalid →
      (doChipErase bi st r).st = st := by
  unfold doChipErase
  split
  case h_1 => intro _; rfl
  case h_2 e r1 heq1 =>
    dsimp only
    split
    case h_1 p heqv => intro h; simp [cmdFail] at h
    case h_2 heqv => intro h; simp [cmdOk] at h

/-- SET_DELAY replies INVALID only without touching the state. -/
theorem doSetDelay_invalid (bi : BoardInfo) (st : St) (r : Rd) :
    (doSetDelay bi st r).reply = some Status.invalid →
      (doSetDelay bi st r).st = st := by
  unfold doSetDelay
  split
  case h_1 => intro _; rfl
  case h_2 p v r1 heq1 =>
    split
    case isTrue => intro _; rfl
    case isFalse hmax =>
      split
      case h_1 => intro _; rfl
      case h_2 e r2 heq2 =>
        split
        case isTrue => intro _; rfl
        case isFalse hsig =>
          dsimp only
          split
          case isTrue => intro h; simp [cmdFail] at h
          case isFalse => intro h; simp [cmdOk] at h

/-- SET_DELAY never writes at offset 0 when the boot-delay signature lives
elsewhere. -/
theorem doSetDelay_flash0 (bi : BoardInfo) (st : St) (r : Rd)
    (hbd : bi.boot_delay_addr ≠ 0) :
    (doSetDelay bi st r).st.flash 0 = st.flash 0 := by
  unfold doSetDelay
  split
  case h_1 => rfl
  case h_2 p v r1 heq1 =>
    split
    case isTrue => rfl
    case isFalse hmax =>
      split
      case h_1 => rfl
      case h_2 e r2 heq2 =>
        split
        case isTrue => rfl
        case isFalse hsig =>
          dsimp only
          split
          case isTrue =>
            exact flash_func_write_word_flash_ne st bi.boot_delay_addr _ 0 (fun hh => hbd hh.symm)
          case isFalse =>
            exact flash_func_write_word_flash_ne st bi.boot_delay_addr _ 0 (fun hh => hbd hh.symm)

/-- BOOT replies INVALID only without touching the state. -/
theorem doBoot_invalid (st : St) (r : Rd) :
    (doBoot st r).reply = some Status.invalid → (doBoot st r).st = st := by
  unfold doBoot
  split
  case h_1 => intro _; rfl
  case h_2 e r1 heq1 =>
    split
    case isTrue =>
      dsimp only
      split
      case isTrue => intro h; simp [cmdFail] at h
      case isFalse => intro h; simp [cmdBoot] at h
    case isFalse => intro h; simp [cmdBoot] at h

/-- When BOOT does not end the session, flash word 0 keeps its value: the
deferred write either did not happen or bounced off the faulty cell. -/
theorem doBoot_flash0 (st : St) (r : Rd) :
    (doBoot st r).booted = false →
      (doBoot st r).st.flash 0 = st.flash 0 := by
  unfold doBoot
  split
  case h_1 => intro _; rfl
  case h_2 e r1 heq1 =>
    split
    case isTrue hfw =>
      dsimp only
      split
      case isTrue hv =>
        intro _
        show (flash_func_write_word st 0 st.first_word).flash 0 = st.flash 0
        unfold flash_func_write_word
        split
        case isTrue => rfl
        case isFalse hs =>
          exfalso
          unfold flash_func_read_word flash_func_write_word at hv
          rw [if_neg hs] at hv
          simp at hv
      case isFalse hv => intro hb; simp [cmdBoot] at hb
    case isFalse hfw => intro hb; simp [cmdBoot] at hb

/-- The session invariant behind the boot-gate property: flash word 0 reads
erased, the programming address is inside the firmware region, and the
static scratch buffer has its 256 bytes. -/
def SessionInv (bi : BoardInfo) (st : St) : Prop :=
  st.flash 0 = FF ∧ st.address ≤ bi.fw_size ∧ st.flash_buffer.length = 256

/-- Dispatch: a received opcode byte runs exactly one of the handlers. -/
theorem runCmd_cases (bi : BoardInfo) (dec : List Nat → List Nat → List Nat → List Nat)
    (st : St) (op : Nat) (inp : List (Option Nat)) :
    runCmd bi dec st op inp = doGetSync st ⟨inp, []⟩ ∨
    runCmd bi dec st op inp = doGetDevice bi st ⟨inp, []⟩ ∨
    runCmd bi dec st op inp = doChipErase bi st ⟨inp, []⟩ ∨
    runCmd bi dec st op inp = doProgMulti bi st ⟨inp, []⟩ ∨
    runCmd bi dec st op inp = doGetCrc bi st ⟨inp, []⟩ ∨
    runCmd bi dec st op inp = doGetOtp bi st ⟨inp, []⟩ ∨
    runCmd bi dec st op inp = doGetSn bi st ⟨inp, []⟩ ∨
    runCmd bi dec st op inp = doGetChip bi st ⟨inp, []⟩ ∨
    runCmd bi dec st op inp = doSetDelay bi st ⟨inp, []⟩ ∨
    runCmd bi dec st op inp = doGetChipDes bi st ⟨inp, []⟩ ∨
    runCmd bi dec st op inp = doBoot st ⟨inp, []⟩ ∨
    runCmd bi dec st op inp = doDebug st ⟨inp, []⟩ ∨
    runCmd bi dec st op inp = doSetIv st ⟨inp, []⟩ ∨
    runCmd bi dec st op inp = doProgMultiEnc bi dec st ⟨inp, []⟩ ∨
    runCmd bi dec st op inp = doCheckCrc bi st ⟨inp, []⟩ ∨
    runCmd bi dec st op inp = doCheckKey st ⟨inp, []⟩ ∨
    runCmd bi dec st op inp = cmdSilent st ⟨inp, []⟩ := by
  unfold runCmd
  by_cases h33 : op = 33
  · rw [if_pos h33]; simp
  rw [if_neg h33]
  by_cases h34 : op = 34
  · rw [if_pos h34]; simp
  rw [if_neg h34]
  by_cases h35 : op = 35
  · rw [if_pos h35]; simp
  rw [if_neg h35]
  by_cases h39 : op = 39
  · rw [if_pos h39]; simp
  rw [if_neg h39]
  by_cases h41 : op = 41
  · rw [if_pos h41]; simp
  rw [if_neg h41]
  by_cases h42 : op = 42
  · rw [if_pos h42]; simp
  rw [if_neg h42]
  by_cases h43 : op = 43
  · rw [if_pos h43]; simp
  rw [if_neg h43]
  by_cases h44 : op = 44
  · rw [if_pos h44]; simp
  rw [if_neg h44]
  by_cases h45 : op = 45
  · rw [if_pos h45]; simp
  rw [if_neg h45]
  by_cases h46 : op = 46
  · rw [if_pos h46]; simp
  rw [if_neg h46]
  by_cases h48 : op = 48
  · rw [if_pos h48]; simp
  rw [if_neg h48]
  by_cases h49 : op = 49
  · rw [if_pos h49]; simp
  rw [if_neg h49]
  by_cases h54 : op = 54
  · rw [if_pos h54]; simp
  rw [if_neg h54]
  by_cases h55 : op = 55
  · rw [if_pos h55]; simp
  rw [if_neg h55]
  by_cases h56 : op = 56
  · rw [if_pos h56]; simp
  rw [if_neg h56]
  by_cases h57 : op = 57
  · rw [if_pos h57]; simp
  rw [if_neg h57]
  simp

/-- Every command that does not end the session by booting preserves the
session invariant. -/
theorem runCmd_inv (bi : BoardInfo) (dec : List Nat → List Nat → List Nat → List Nat)
    (st : St) (op : Nat) (inp : List (Option Nat))
    (hbd : bi.boot_delay_addr ≠ 0) (hfw : bi.fw_size + 260 < M32)
    (hinv : SessionInv bi st) :
    (runCmd bi dec st op inp).booted = false →
      SessionInv bi (runCmd bi dec st op inp).st := by
  obtain ⟨hf, ha, hbuf⟩ := hinv
  rcases runCmd_cases bi dec st op inp with
    h | h | h | h | h | h | h | h | h | h | h | h | h | h | h | h | h <;> rw [h]
  · rw [doGetSync_st]
    exact fun _ => ⟨hf, ha, hbuf⟩
  · rw [doGetDevice_st]
    exact fun _ => ⟨hf, ha, hbuf⟩
  · exact fun _ => doChipErase_inv bi st _ hf ha hbuf
  · exact fun _ => doProgMulti_inv bi st _ hf ha hbuf hfw
  · rw [doGetCrc_st]
    exact fun _ => ⟨hf, ha, hbuf⟩
  · rw [doGetOtp_st]
    exact fun _ => ⟨hf, ha, hbuf⟩
  · rw [doGetSn_st]
    exact fun _ => ⟨hf, ha, hbuf⟩
  · rw [doGetChip_st]
    exact fun _ => ⟨hf, ha, hbuf⟩
  · intro _
    obtain ⟨fl, hsh⟩ := doSetDelay_shape bi st ⟨inp, []⟩
    refine ⟨?_, ?_, ?_⟩
    · rw [doSetDelay_flash0 bi st _ hbd]
      exact hf
    · rw [hsh]
      exact ha
    · rw [hsh]
      exact hbuf
  · rw [doGetChipDes_st]
    exact fun _ => ⟨hf, ha, hbuf⟩
  · intro hnb
    obtain ⟨fl, fw0, hsh⟩ := doBoot_shape st ⟨inp, []⟩
    refine ⟨?_, ?_, ?_⟩
    · rw [doBoot_flash0 st _ hnb]
      exact hf
    · rw [hsh]
      exact ha
    · rw [hsh]
      exact hbuf
  · exact fun _ => ⟨hf, ha, hbuf⟩
  · intro _
    obtain ⟨ivN, hsh⟩ := doSetIv_shape st ⟨inp, []⟩
    refine ⟨?_, ?_, ?_⟩ <;> rw [hsh]
    · exact hf
    · exact ha
    · exact hbuf
  · exact fun _ => doProgMultiEnc_inv bi dec st _ hf ha hbuf hfw
  · rw [doCheckCrc_st]
    exact fun _ => ⟨hf, ha, hbuf⟩
  · rw [doCheckKey_st]
    exact fun _ => ⟨hf, ha, hbuf⟩
  · exact fun _ => ⟨hf, ha, hbuf⟩

/-- The session invariant is preserved along every non-booting run. -/
theorem runCmds_inv (bi : BoardInfo) (dec : List Nat → List Nat → List Nat → List Nat)
    (cmds : List (Nat × List (Option Nat)))
    (hbd : bi.boot_delay_addr ≠ 0) (hfw : bi.fw_size + 260 < M32) :
    ∀ st : St, SessionInv bi st → (runCmds bi dec st cmds).2 = false →
      SessionInv bi (runCmds bi dec st cmds).1 := by
  induction cmds with
  | nil => exact fun st h _ => h
  | cons c rest ih =>
    rcases c with ⟨op, inp⟩
    intro st hinv
    unfold runCmds
    dsimp only
    by_cases hb : (runCmd bi dec st op inp).booted = true
    · rw [if_pos hb]
      intro hnb
      simp at hnb
    · rw [if_neg hb]
      exact ih (runCmd bi dec st op inp).st
        (runCmd_inv bi dec st op inp hbd hfw ⟨hinv.1, hinv.2.1, hinv.2.2⟩
          (Bool.not_eq_true _ ▸ hb))

/-- An OK exit status means the loop verified every word. -/
theorem status_if_ok (b : Bool)
    (h : (if b = true then Status.ok else Status.failed) = Status.ok) : b = true := by
  cases b
  · simp at h
  · rfl

/-- Success variant of `writeWords_address_ok` with the success hypothesis
first, for unification. -/
theorem writeWords_address_of_ok (ws : List Nat) (st : St)
    (h : (writeWords st ws).2 = true) (hb : st.address + 4 * ws.length < M32) :
    (writeWords st ws).1.address = st.address + 4 * ws.length :=
  writeWords_address_ok ws st hb h

/-- An accepted PROG_MULTI advances the address by exactly the length byte. -/
theorem doProgMulti_ok_address (bi : BoardInfo) (st : St) (b : Nat)
    (rest : List (Option Nat)) (dls : List Nat)
    (ha : st.address ≤ bi.fw_size) (hfw : bi.fw_size + 260 < M32) :
    (doProgMulti bi st ⟨some b :: rest, dls⟩).reply = some Status.ok →
      (doProgMulti bi st ⟨some b :: rest, dls⟩).st.address = st.address + b % 256 := by
  have hM : M32 = 4294967296 := rfl
  unfold doProgMulti
  rw [show cin_wait 50 ⟨some b :: rest, dls⟩ = (some (b % 256), ⟨rest, dls ++ [50]⟩) from rfl]
  dsimp only
  split
  case isTrue => intro h; simp [cmdBad] at h
  case isFalse hmod =>
    split
    case isTrue => intro h; simp [cmdBad] at h
    case isFalse hsize =>
      split
      case isTrue => intro h; simp [cmdBad] at h
      case isFalse hlen =>
        have hsz : st.address + b % 256 ≤ bi.fw_size :=
          addr_guard _ _ _ hsize ha (by omega) hfw
        split
        case h_1 => intro h; simp [cmdBad] at h
        case h_2 q bs r2 heq2 =>
          split
          case h_1 => intro h; simp [cmdBad] at h
          case h_2 e r3 heq3 =>
            rw [progTail_reply, progTail_st]
            intro h
            have hsucc := status_if_ok _ (Option.some.inj h)
            have haddr := writeWords_address_of_ok _ _ hsucc
              (by rw [progWords_length]
                  split
                  case isTrue h0 =>
                    show st.address + 4 * (b % 256 / 4 - 0) < M32
                    omega
                  case isFalse h0 =>
                    show st.address + 4 * (b % 256 / 4 - 0) < M32
                    omega)
            rw [haddr, progWords_length]
            split
            case isTrue h0 =>
              show st.address + 4 * (b % 256 / 4 - 0) = st.address + b % 256
              omega
            case isFalse h0 =>
              show st.address + 4 * (b % 256 / 4 - 0) = st.address + b % 256
              omega

/-- Any command that replies INVALID leaves `address` and `first_word`
unchanged. -/
theorem runCmd_invalid_frame (bi : BoardInfo)
    (dec : List Nat → List Nat → List Nat → List Nat)
    (st : St) (op : Nat) (inp : List (Option Nat)) :
    (runCmd bi dec st op inp).reply = some Status.invalid →
      (runCmd bi dec st op inp).st.address = st.address ∧
        (runCmd bi dec st op inp).st.first_word = st.first_word := by
  rcases runCmd_cases bi dec st op inp with
    h | h | h | h | h | h | h | h | h | h | h | h | h | h | h | h | h <;> rw [h]
  · rw [doGetSync_st]
    exact fun _ => ⟨rfl, rfl⟩
  · rw [doGetDevice_st]
    exact fun _ => ⟨rfl, rfl⟩
  · intro hh
    rw [doChipErase_invalid bi st _ hh]
    exact ⟨rfl, rfl⟩
  · exact doProgMulti_invalid bi st _
  · rw [doGetCrc_st]
    exact fun _ => ⟨rfl, rfl⟩
  · rw [doGetOtp_st]
    exact fun _ => ⟨rfl, rfl⟩
  · rw [doGetSn_st]
    exact fun _ => ⟨rfl, rfl⟩
  · rw [doGetChip_st]
    exact fun _ => ⟨rfl, rfl⟩
  · intro hh
    rw [doSetDelay_invalid bi st _ hh]
    exact ⟨rfl, rfl⟩
  · rw [doGetChipDes_st]
    exact fun _ => ⟨rfl, rfl⟩
  · intro hh
    rw [doBoot_invalid st _ hh]
    exact ⟨rfl, rfl⟩
  · exact fun _ => ⟨rfl, rfl⟩
  · intro _
    obtain ⟨ivN, hsh⟩ := doSetIv_shape st ⟨inp, []⟩
    rw [hsh]
    exact ⟨rfl, rfl⟩
  · exact doProgMultiEnc_invalid bi dec st _
  · rw [doCheckCrc_st]
    exact fun _ => ⟨rfl, rfl⟩
  · rw [doCheckKey_st]
    exact fun _ => ⟨rfl, rfl⟩
  · exact fun _ => ⟨rfl, rfl⟩

/-- No command does anything to the key region except leave it alone or
zero it. -/
theorem runCmd_key (bi : BoardInfo) (dec : List Nat → List Nat → List Nat → List Nat)
    (st : St) (op : Nat) (inp : List (Option Nat)) :
    (runCmd bi dec st op inp).st.key = st.key ∨
      (runCmd bi dec st op inp).st.key = st.key.map (fun _ => 0) := by
  rcases runCmd_cases bi dec st op inp with
    h | h | h | h | h | h | h | h | h | h | h | h | h | h | h | h | h <;> rw [h]
  · rw [doGetSync_st]
    exact Or.inl rfl
  · rw [doGetDevice_st]
    exact Or.inl rfl
  · obtain ⟨fl, a, hsh⟩ := doChipErase_shape bi st ⟨inp, []⟩
    rw [hsh]
    exact Or.inl rfl
  · exact doProgMulti_key bi st _
  · rw [doGetCrc_st]
    exact Or.inl rfl
  · rw [doGetOtp_st]
    exact Or.inl rfl
  · rw [doGetSn_st]
    exact Or.inl rfl
  · rw [doGetChip_st]
    exact Or.inl rfl
  · obtain ⟨fl, hsh⟩ := doSetDelay_shape bi st ⟨inp, []⟩
    rw [hsh]
    exact Or.inl rfl
  · rw [doGetChipDes_st]
    exact Or.inl rfl
  · obtain ⟨fl, fw0, hsh⟩ := doBoot_shape st ⟨inp, []⟩
    rw [hsh]
    exact Or.inl rfl
  · exact Or.inl rfl
  · obtain ⟨ivN, hsh⟩ := doSetIv_shape st ⟨inp, []⟩
    rw [hsh]
    exact Or.inl rfl
  · rw [doProgMultiEnc_key bi dec st _]
    exact Or.inl rfl
  · rw [doCheckCrc_st]
    exact Or.inl rfl
  · rw [doCheckKey_st]
    exact Or.inl rfl
  · exact Or.inl rfl

/-- Over a whole session the key region is monotone: at the end it is
either untouched or zeroed. -/
theorem runCmds_key (bi : BoardInfo) (dec : List Nat → List Nat → List Nat → List Nat)
    (cmds : List (Nat × List (Option Nat))) :
    ∀ st : St, (runCmds bi dec st cmds).1.key = st.key ∨
      (runCmds bi dec st cmds).1.key = st.key.map (fun _ => 0) := by
  induction cmds with
  | nil => exact fun st => Or.inl rfl
  | cons c rest ih =>
    rcases c with ⟨op, inp⟩
    intro st
    unfold runCmds
    dsimp only
    by_cases hb : (runCmd bi dec st op inp).booted = true
    · rw [if_pos hb]
      exact runCmd_key bi dec st op inp
    · rw [if_neg hb]
      rcases ih (runCmd bi dec st op inp).st with h1 | h1 <;>
        rcases runCmd_key bi dec st op inp with h2 | h2
      · exact Or.inl (h1.trans h2)
      · exact Or.inr (h1.trans h2)
      · exact Or.inr (by rw [h1, h2])
      · exact Or.inr (by rw [h1, h2, List.map_map]; rfl)

/-- C1: in a session entered with no application present (flash word 0
reads 0xFFFFFFFF), after any sequence of commands that does not end with a
successful BOOT, the physical word at offset 0 of the application flash
region still equals 0xFFFFFFFF: PROG_MULTI and PROG_MULTI_ENCRYPTED packets
targeting address 0 never write the captured first word (they substitute
0xFFFFFFFF), and only an accepted BOOT writes it. -/
theorem C1_boot_gate (bi : BoardInfo) (dec : List Nat → List Nat → List Nat → List Nat)
    (flash0 : Nat → Nat) (stuck : Nat → Bool) (key : List Nat)
    (cmds : List (Nat × List (Option Nat)))
    (hinit : flash0 0 = FF) (hbd : bi.boot_delay_addr ≠ 0)
    (hfw : bi.fw_size + 260 < M32)
    (hnb : (runCmds bi dec (initSt bi flash0 stuck key) cmds).2 = false) :
    (runCmds bi dec (initSt bi flash0 stuck key) cmds).1.flash 0 = FF :=
  (runCmds_inv bi dec cmds hbd hfw (initSt bi flash0 stuck key)
    ⟨hinit, Nat.le_refl _, List.length_replicate 256 0⟩ hnb).1

/-- C1 witness: a concrete non-booting session (erase, program four bytes
at address 0, no BOOT) on the concrete board leaves flash word 0 erased. -/
theorem C1_boot_gate_witness :
    flashErased 0 = FF ∧
      (runCmds bi0 dec0 (initSt bi0 flashErased stuckNone keyGood)
          [(35, [some 32]), (39, [some 4, some 221, some 204, some 187, some 170, some 32])]).2 = false ∧
      (runCmds bi0 dec0 (initSt bi0 flashErased stuckNone keyGood)
          [(35, [some 32]), (39, [some 4, some 221, some 204, some 187, some 170, some 32])]).1.flash 0 = FF :=
  ⟨by decide, by decide,
    C1_boot_gate bi0 dec0 flashErased stuckNone keyGood
      [(35, [some 32]), (39, [some 4, some 221, some 204, some 187, some 170, some 32])]
      (by decide) (by decide) (by decide) (by decide)⟩

/-- An accepted PROG_MULTI with length byte 0: it is not rejected but
replies OK; with a nonzero session address it is a no-op, and at address 0
it zeroes the key and captures the stale buffer word 0 as the pending
first word. -/
theorem doProgMulti_len0 (bi : BoardInfo) (st : St) (rest : List (Option Nat)) (dls : List Nat)
    (ha : st.address ≤ bi.fw_size) (hfw : bi.fw_size < M32) :
    (doProgMulti bi st ⟨some 0 :: some PROTO_EOC :: rest, dls⟩).reply = some Status.ok ∧
      (doProgMulti bi st ⟨some 0 :: some PROTO_EOC :: rest, dls⟩).st.address = st.address ∧
      (st.address ≠ 0 → (doProgMulti bi st ⟨some 0 :: some PROTO_EOC :: rest, dls⟩).st = st) ∧
      (st.address = 0 → (doProgMulti bi st ⟨some 0 :: some PROTO_EOC :: rest, dls⟩).st =
        { st with first_word := bufWord st.flash_buffer 0, flash_buffer := bufSetWord st.flash_buffer 0 FF, key := st.key.map (fun w => if w ≠ 0 then 0 else w) }) := by
  unfold doProgMulti
  rw [show cin_wait 50 ⟨some 0 :: some PROTO_EOC :: rest, dls⟩ =
    (some 0, ⟨some PROTO_EOC :: rest, dls ++ [50]⟩) from rfl]
  dsimp only
  rw [if_neg (by decide)]
  rw [if_neg (show ¬ (st.address + 0) % M32 > bi.fw_size by
    rw [Nat.add_zero, Nat.mod_eq_of_lt (lt_of_le_of_lt ha hfw)]
    omega)]
  rw [if_neg (by decide)]
  rw [show readBytes 1000 0 ⟨some PROTO_EOC :: rest, dls ++ [50]⟩ =
    ([], true, ⟨some PROTO_EOC :: rest, dls ++ [50]⟩) from rfl]
  dsimp only
  rw [show wait_for_eoc 200 ⟨some PROTO_EOC :: rest, dls ++ [50]⟩ =
    (true, ⟨rest, dls ++ [50] ++ [200]⟩) from rfl]
  dsimp only
  by_cases h0 : st.address = 0
  · rw [if_pos h0]
    refine ⟨rfl, ?_, fun hne => absurd h0 hne, fun _ => rfl⟩
    show st.address = st.address
    rfl
  · rw [if_neg h0]
    exact ⟨rfl, rfl, fun _ => rfl, fun he => absurd he h0⟩

/-- C5 counterexample: on a fresh session, PROG_MULTI with length byte 0
and a well-formed EOC replies OK, not INVALID as the claim states. -/
theorem C5_counterexample :
    (runCmd bi0 dec0 st0 39 [some 0, some 32]).reply = some Status.ok ∧
      (runCmd bi0 dec0 st0 39 [some 0, some 32]).reply ≠ some Status.invalid := by
  decide

/-- C5 (amended): a PROG_MULTI command whose length byte is 0 passes every
argument check (0 is a multiple of 4) and replies OK; with the session
address nonzero it has no side effects, and at address 0 it zeroes the key
and captures the stale scratch-buffer word as the pending first word. -/
theorem C5_prog_multi_len0 (bi : BoardInfo)
    (dec : List Nat → List Nat → List Nat → List Nat) (st : St)
    (rest : List (Option Nat))
    (ha : st.address ≤ bi.fw_size) (hfw : bi.fw_size < M32) :
    (runCmd bi dec st 39 (some 0 :: some PROTO_EOC :: rest)).reply = some Status.ok ∧
      (runCmd bi dec st 39 (some 0 :: some PROTO_EOC :: rest)).st.address = st.address ∧
      (st.address ≠ 0 → (runCmd bi dec st 39 (some 0 :: some PROTO_EOC :: rest)).st = st) ∧
      (st.address = 0 → (runCmd bi dec st 39 (some 0 :: some PROTO_EOC :: rest)).st =
        { st with first_word := bufWord st.flash_buffer 0, flash_buffer := bufSetWord st.flash_buffer 0 FF, key := st.key.map (fun w => if w ≠ 0 then 0 else w) }) := by
  rw [show runCmd bi dec st 39 (some 0 :: some PROTO_EOC :: rest) =
    doProgMulti bi st ⟨some 0 :: some PROTO_EOC :: rest, []⟩ from rfl]
  exact doProgMulti_len0 bi st rest [] ha hfw

/-- C5 witness: the amended statement applied to the fresh concrete
session. -/
theorem C5_prog_multi_len0_witness :
    st0.address ≤ bi0.fw_size ∧
      (runCmd bi0 dec0 st0 39 (some 0 :: some PROTO_EOC :: [])).reply = some Status.ok :=
  ⟨by decide, (C5_prog_multi_len0 bi0 dec0 st0 [] (by decide) (by decide)).1⟩

/-- Flash holding a stuck cell at offset 4 that reads 0 (a cell the erase
cannot clear). -/
def c3flash : Nat → Nat := fun a => if a = 4 then 0 else FF

/-- The stuck-cell map for the erase-failure scenario. -/
def c3stuck : Nat → Bool := fun a => a == 4

/-- A fresh session over the faulty flash. -/
def c3st : St := initSt bi0 c3flash c3stuck keyGood

/-- C3 counterexample: a CHIP_ERASE whose verify sweep fails replies FAILED
and leaves `address` at the failing offset 4, not at its starting value 16:
a FAILED reply does not leave the session's `address` unchanged. -/
theorem C3_counterexample :
    (runCmd bi0 dec0 c3st 35 [some 32]).reply = some Status.failed ∧
      c3st.address = 16 ∧
      (runCmd bi0 dec0 c3st 35 [some 32]).st.address = 4 := by
  decide

/-- C3 (amended): every command that replies INVALID leaves the session's
`address` and `first_word` unchanged, and every accepted PROG_MULTI
advances `address` by exactly its length byte; but a command that replies
FAILED may change them (CHIP_ERASE leaves `address` at the failing verify
offset, and a PROG_MULTI write-verify failure leaves `address` partially
advanced and `first_word` captured). -/
theorem C3_error_frame :
    (∀ (bi : BoardInfo) (dec : List Nat → List Nat → List Nat → List Nat)
        (st : St) (op : Nat) (inp : List (Option Nat)),
      (runCmd bi dec st op inp).reply = some Status.invalid →
        (runCmd bi dec st op inp).st.address = st.address ∧
          (runCmd bi dec st op inp).st.first_word = st.first_word) ∧
    (∀ (bi : BoardInfo) (dec : List Nat → List Nat → List Nat → List Nat)
        (st : St) (b : Nat) (rest : List (Option Nat)),
      st.address ≤ bi.fw_size → bi.fw_size + 260 < M32 →
        (runCmd bi dec st 39 (some b :: rest)).reply = some Status.ok →
          (runCmd bi dec st 39 (some b :: rest)).st.address = st.address + b % 256) := by
  constructor
  · exact fun bi dec st op inp => runCmd_invalid_frame bi dec st op inp
  · intro bi dec st b rest ha hfw
    rw [show runCmd bi dec st 39 (some b :: rest) =
      doProgMulti bi st ⟨some b :: rest, []⟩ from rfl]
    exact doProgMulti_ok_address bi st b rest [] ha hfw

/-- C3 witness: a GET_DEVICE with a missing EOC replies INVALID and indeed
leaves the fresh session's address at its starting value; an accepted
4-byte PROG_MULTI advances the address by exactly 4. -/
theorem C3_error_frame_witness :
    ((runCmd bi0 dec0 st0 34 [some 1]).reply = some Status.invalid ∧
      (runCmd bi0 dec0 st0 34 [some 1]).st.address = st0.address) ∧
    ((runCmd bi0 dec0 (runCmd bi0 dec0 st0 35 [some 32]).st 39
        [some 4, some 1, some 2, some 3, some 4, some 32]).reply = some Status.ok ∧
      (runCmd bi0 dec0 (runCmd bi0 dec0 st0 35 [some 32]).st 39
        [some 4, some 1, some 2, some 3, some 4, some 32]).st.address =
        (runCmd bi0 dec0 st0 35 [some 32]).st.address + 4 % 256) :=
  ⟨⟨by decide, (C3_error_frame.1 bi0 dec0 st0 34 [some 1] (by decide)).1⟩,
    ⟨by decide, C3_error_frame.2 bi0 dec0 (runCmd bi0 dec0 st0 35 [some 32]).st 4
      [some 1, some 2, some 3, some 4, some 32] (by decide) (by decide) (by decide)⟩⟩

/-- The session state after erasing and uploading four bytes at address 0
on healthy flash: a pending first word 0xAABBCCDD is captured. -/
def c4pre : St :=
  (runCmds bi0 dec0 st0
    [(35, [some 32]), (39, [some 4, some 221, some 204, some 187, some 170, some 32])]).1

/-- C4 counterexample: a successful CHIP_ERASE issued while a first word is
pending resets `address` to 0 but does not reset `first_word` to
0xFFFFFFFF — the pending word 0xAABBCCDD survives the erase. -/
theorem C4_counterexample :
    (runCmd bi0 dec0 c4pre 35 [some 32]).reply = some Status.ok ∧
      (runCmd bi0 dec0 c4pre 35 [some 32]).st.address = 0 ∧
      c4pre.first_word = 2864434397 ∧
      (runCmd bi0 dec0 c4pre 35 [some 32]).st.first_word = 2864434397 ∧
      (runCmd bi0 dec0 c4pre 35 [some 32]).st.first_word ≠ FF := by
  decide

/-- C4 (amended): a successful CHIP_ERASE (erase verify sweep finds every
word of the region reading 0xFFFFFFFF) replies OK and resets `address` to
0, leaving `first_word` unchanged (it is not reset); if the verify sweep
finds a word that is not 0xFFFFFFFF the command replies FAILED. -/
theorem C4_chip_erase (bi : BoardInfo)
    (dec : List Nat → List Nat → List Nat → List Nat) (st : St)
    (rest : List (Option Nat)) :
    (eraseVerify (eraseAllSectors st).flash ((bi.fw_size + 3) / 4) 0 = none →
      (runCmd bi dec st 35 (some PROTO_EOC :: rest)).reply = some Status.ok ∧
        (runCmd bi dec st 35 (some PROTO_EOC :: rest)).st.address = 0 ∧
        (runCmd bi dec st 35 (some PROTO_EOC :: rest)).st.first_word = st.first_word) ∧
    (∀ p, eraseVerify (eraseAllSectors st).flash ((bi.fw_size + 3) / 4) 0 = some p →
      (runCmd bi dec st 35 (some PROTO_EOC :: rest)).reply = some Status.failed ∧
        (runCmd bi dec st 35 (some PROTO_EOC :: rest)).st.first_word = st.first_word) := by
  rw [show runCmd bi dec st 35 (some PROTO_EOC :: rest) =
    doChipErase bi st ⟨some PROTO_EOC :: rest, []⟩ from rfl]
  unfold doChipErase
  rw [show wait_for_eoc 2 ⟨some PROTO_EOC :: rest, []⟩ = (true, ⟨rest, [2]⟩) from rfl]
  dsimp only
  constructor
  · intro hnone
    rw [hnone]
    exact ⟨rfl, rfl, rfl⟩
  · intro p hsome
    rw [hsome]
    exact ⟨rfl, rfl⟩

/-- C4 witness: the amended statement applied to the fresh concrete session
on healthy flash. -/
theorem C4_chip_erase_witness :
    eraseVerify (eraseAllSectors st0).flash ((bi0.fw_size + 3) / 4) 0 = none ∧
      (runCmd bi0 dec0 st0 35 [some PROTO_EOC]).reply = some Status.ok :=
  ⟨by decide, ((C4_chip_erase bi0 dec0 st0 []).1 (by decide)).1⟩

/-- The stuck-at-erased cell map used by the BOOT write-verify scenario:
offset 0 cannot be programmed. -/
def c2stuck : Nat → Bool := fun a => a == 0

/-- Erase then upload four bytes at address 0 over flash whose word 0 is
stuck at 0xFFFFFFFF: the session holds first_word = 0xAABBCCDD pending. -/
def c2pre : St :=
  (runCmds bi0 dec0 (initSt bi0 flashErased c2stuck keyGood)
    [(35, [some 32]), (39, [some 4, some 221, some 204, some 187, some 170, some 32])]).1

/-- C2 counterexample: the BOOT write of the pending first word fails its
read-back verify (stuck cell) and replies FAILED, but `first_word` is NOT
restored to 0xFFFFFFFF — it keeps the pending value 0xAABBCCDD. -/
theorem C2_counterexample :
    c2pre.first_word = 2864434397 ∧
      (runCmd bi0 dec0 c2pre 48 [some 32]).reply = some Status.failed ∧
      (runCmd bi0 dec0 c2pre 48 [some 32]).booted = false ∧
      (runCmd bi0 dec0 c2pre 48 [some 32]).st.first_word = 2864434397 ∧
      (runCmd bi0 dec0 c2pre 48 [some 32]).st.first_word ≠ FF := by
  decide

/-- C2 (amended): when BOOT is accepted (EOC read) with a pending first
word, the bootloader writes it to flash offset 0; if the immediate
read-back verify fails (the cell is faulty and does not hold the value),
the reply is FAILED and `first_word` keeps its pending value — it is reset
to 0xFFFFFFFF only on the success path, where the session then boots. -/
theorem C2_boot_first_word (st : St) (rest : List (Option Nat))
    (hpend : st.first_word ≠ FF) :
    ((st.stuck 0 = true ∧ st.flash 0 ≠ st.first_word) →
      (doBoot st ⟨some PROTO_EOC :: rest, []⟩).reply = some Status.failed ∧
        (doBoot st ⟨some PROTO_EOC :: rest, []⟩).booted = false ∧
        (doBoot st ⟨some PROTO_EOC :: rest, []⟩).st.first_word = st.first_word) ∧
    (st.stuck 0 = false →
      (doBoot st ⟨some PROTO_EOC :: rest, []⟩).reply = some Status.ok ∧
        (doBoot st ⟨some PROTO_EOC :: rest, []⟩).booted = true ∧
        (doBoot st ⟨some PROTO_EOC :: rest, []⟩).st.flash 0 = st.first_word ∧
        (doBoot st ⟨some PROTO_EOC :: rest, []⟩).st.first_word = FF) := by
  unfold doBoot
  rw [show wait_for_eoc 1000 ⟨some PROTO_EOC :: rest, []⟩ = (true, ⟨rest, [1000]⟩) from rfl]
  dsimp only
  rw [if_pos hpend]
  constructor
  · intro ⟨hs, hne⟩
    rw [show flash_func_write_word st 0 st.first_word = st by
      unfold flash_func_write_word
      rw [if_pos hs]]
    rw [if_pos (show flash_func_read_word st 0 ≠ st.first_word from hne)]
    exact ⟨rfl, rfl, rfl⟩
  · intro hs
    rw [show flash_func_write_word st 0 st.first_word =
      { st with flash := fun x => if x = 0 then st.first_word else st.flash x } by
      unfold flash_func_write_word
      rw [if_neg (by rw [hs]; exact Bool.false_ne_true)]]
    rw [if_neg (show ¬ flash_func_read_word { st with flash := fun x => if x = 0 then st.first_word else st.flash x } 0 ≠ st.first_word by
      show ¬ (if (0 : Nat) = 0 then st.first_word else st.flash 0) ≠ st.first_word
      rw [if_pos rfl]
      exact not_not_intro rfl)]
    refine ⟨rfl, rfl, ?_, rfl⟩
    show (if (0 : Nat) = 0 then st.first_word else st.flash 0) = st.first_word
    rw [if_pos rfl]

/-- C2 witness: the success half applied to the healthy-flash session with
a pending first word: BOOT programs it and boots. -/
theorem C2_boot_first_word_witness :
    c4pre.first_word ≠ FF ∧ c4pre.stuck 0 = false ∧
      (doBoot c4pre ⟨some PROTO_EOC :: [], []⟩).reply = some Status.ok ∧
      (doBoot c4pre ⟨some PROTO_EOC :: [], []⟩).st.flash 0 = c4pre.first_word :=
  ⟨by decide, by decide,
    ((C2_boot_first_word c4pre [] (by decide)).2 (by decide)).1,
    ((C2_boot_first_word c4pre [] (by decide)).2 (by decide)).2.2.1⟩

/-- Payload-read helper with an explicit count equal to the byte list's
length. -/
theorem readBytes_complete2 (t k : Nat) (bs : List Nat) (rest : List (Option Nat))
    (dls : List Nat) (hk : bs.length = k) :
    readBytes t k ⟨bs.map some ++ rest, dls⟩ =
      (bs.map (fun b => b % 256), true, ⟨rest, dls ++ List.replicate k t⟩) := by
  subst hk
  exact readBytes_complete t bs rest dls

/-- Zeroing condition by condition is plain zeroing. -/
theorem keyZero_map (k : List Nat) :
    k.map (fun w => if w ≠ 0 then 0 else w) = k.map (fun _ => 0) := by
  induction k with
  | nil => rfl
  | cons w ws ih =>
    simp only [List.map_cons, ih]
    congr 1
    split <;> omega

/-- C6 counterexample: a PROG_MULTI_ENCRYPTED with length byte 0 on a fresh
session with an intact key replies OK, not INVALID as the claim states. -/
theorem C6_counterexample :
    (runCmd bi0 dec0 st0 55 [some 0, some 32]).reply = some Status.ok ∧
      (runCmd bi0 dec0 st0 55 [some 0, some 32]).reply ≠ some Status.invalid := by
  decide

/-- C6 (amended): PROG_MULTI_ENCRYPTED rejects with INVALID a length byte
that is not a multiple of 4 (immediately — this covers 255, the only byte
value not below 255), and a nonzero multiple of 4 that is not a multiple
of 16 once the key and size checks have passed; but a length of 0 is not
rejected: it passes every check and replies OK. -/
theorem C6_enc_length_checks :
    (∀ (bi : BoardInfo) (dec : List Nat → List Nat → List Nat → List Nat)
        (st : St) (b : Nat) (rest : List (Option Nat)),
      b % 256 % 4 ≠ 0 →
        (runCmd bi dec st 55 (some b :: rest)).reply = some Status.invalid) ∧
    (∀ (bi : BoardInfo) (dec : List Nat → List Nat → List Nat → List Nat)
        (st : St) (b : Nat) (bytes : List Nat),
      b < 256 → b % 4 = 0 → b % 16 ≠ 0 → bytes.length = b →
        st.key_state = 0 → st.address + b ≤ bi.fw_size → bi.fw_size < M32 →
        (runCmd bi dec st 55 (some b :: (bytes.map some ++ [some PROTO_EOC]))).reply =
          some Status.invalid) ∧
    (∀ (bi : BoardInfo) (dec : List Nat → List Nat → List Nat → List Nat)
        (st : St) (rest : List (Option Nat)),
      st.key_state = 0 → st.address ≠ 0 → st.address ≤ bi.fw_size →
        st.num_to_flash ≤ bi.fw_size → bi.fw_size < M32 →
        (runCmd bi dec st 55 (some 0 :: some PROTO_EOC :: rest)).reply =
          some Status.ok) := by
  have hM : M32 = 4294967296 := rfl
  refine ⟨?_, ?_, ?_⟩
  · intro bi dec st b rest hmod
    rw [show runCmd bi dec st 55 (some b :: rest) =
      doProgMultiEnc bi dec st ⟨some b :: rest, []⟩ from rfl]
    unfold doProgMultiEnc
    rw [show cin_wait 50 ⟨some b :: rest, []⟩ = (some (b % 256), ⟨rest, [50]⟩) from rfl]
    dsimp only
    rw [if_pos hmod]
    rfl
  · intro bi dec st b bytes hb hmod4 hmod16 hlen hkey hsz hfwM
    rw [show runCmd bi dec st 55 (some b :: (bytes.map some ++ [some PROTO_EOC])) =
      doProgMultiEnc bi dec st ⟨some b :: (bytes.map some ++ [some PROTO_EOC]), []⟩ from rfl]
    unfold doProgMultiEnc
    rw [show cin_wait 50 ⟨some b :: (bytes.map some ++ [some PROTO_EOC]), []⟩ =
      (some (b % 256), ⟨bytes.map some ++ [some PROTO_EOC], [50]⟩) from rfl]
    dsimp only
    rw [Nat.mod_eq_of_lt hb]
    rw [if_neg (not_not_intro hmod4)]
    rw [if_neg (show ¬ (st.address + b) % M32 > bi.fw_size by
      rw [Nat.mod_eq_of_lt (by omega)]
      omega)]
    rw [if_neg (show ¬ b > 256 by omega)]
    rw [readBytes_complete2 1000 b bytes [some PROTO_EOC] [50] hlen]
    dsimp only
    rw [show wait_for_eoc 200 ⟨[some PROTO_EOC], [50] ++ List.replicate b 1000⟩ =
      (true, ⟨[], [50] ++ List.replicate b 1000 ++ [200]⟩) from rfl]
    dsimp only
    rw [if_neg (show ¬ st.key_state ≠ 0 from not_not_intro hkey)]
    rw [if_neg (show ¬ (b % 16 = 0 ∧ b < 255) from fun hc => hmod16 hc.1)]
    rfl
  · intro bi dec st rest hkey h0 ha hnf hfwM
    rw [show runCmd bi dec st 55 (some 0 :: some PROTO_EOC :: rest) =
      doProgMultiEnc bi dec st ⟨some 0 :: some PROTO_EOC :: rest, []⟩ from rfl]
    unfold doProgMultiEnc
    rw [show cin_wait 50 ⟨some 0 :: some PROTO_EOC :: rest, []⟩ =
      (some 0, ⟨some PROTO_EOC :: rest, [50]⟩) from rfl]
    dsimp only
    rw [if_neg (by decide)]
    rw [if_neg (show ¬ (st.address + 0) % M32 > bi.fw_size by
      rw [Nat.add_zero, Nat.mod_eq_of_lt (by omega)]
      omega)]
    rw [if_neg (by decide)]
    rw [show readBytes 1000 0 ⟨some PROTO_EOC :: rest, [50]⟩ =
      ([], true, ⟨some PROTO_EOC :: rest, [50]⟩) from rfl]
    dsimp only
    rw [show wait_for_eoc 200 ⟨some PROTO_EOC :: rest, [50]⟩ =
      (true, ⟨rest, [50, 200]⟩) from rfl]
    dsimp only
    rw [if_neg (show ¬ st.key_state ≠ 0 from not_not_intro hkey)]
    rw [if_pos (show (0 % 16 = 0 ∧ 0 < 255) by decide)]
    try dsimp only
    simp only [if_neg h0]
    rw [if_neg (show ¬ st.num_to_flash > bi.fw_size by omega)]
    rw [progTail_reply]
    rw [progWords_nil _ 0 (0 / 4) (by decide)]
    rfl

/-- C6 witness: a 4-byte encrypted packet (multiple of 4, not of 16) after
an erase is rejected with INVALID. -/
theorem C6_enc_length_checks_witness :
    (runCmd bi0 dec0 st0 35 [some 32]).st.key_state = 0 ∧
      (runCmd bi0 dec0 (runCmd bi0 dec0 st0 35 [some 32]).st 55
        (some 4 :: ([1, 2, 3, 4].map some ++ [some PROTO_EOC]))).reply =
        some Status.invalid :=
  ⟨by decide,
    C6_enc_length_checks.2.1 bi0 dec0 (runCmd bi0 dec0 st0 35 [some 32]).st 4 [1, 2, 3, 4]
      (by decide) (by decide) (by decide) (by decide) (by decide) (by decide) (by decide)⟩

/-- Flash with a stuck cell at offset 4 that reads erased: CHIP_ERASE
verifies, but programming any word other than 0xFFFFFFFF at offset 4
fails its read-back. -/
def c7stuck : Nat → Bool := fun a => a == 4

/-- The session after a successful CHIP_ERASE over that flash: address 0,
key intact. -/
def c7pre : St :=
  (runCmds bi0 dec0 (initSt bi0 flashErased c7stuck keyGood) [(35, [some 32])]).1

/-- C7 counterexample: a PROG_MULTI targeting address 0 whose write loop
fails the read-back verify (reply FAILED, not a successful packet) has
already zeroed the key: `zero_key` is not called only on successful
packets. -/
theorem C7_counterexample :
    c7pre.address = 0 ∧
      c7pre.key = [3735928559, 0, 0, 0] ∧
      (runCmd bi0 dec0 c7pre 39
        [some 8, some 1, some 2, some 3, some 4, some 5, some 6, some 7, some 8, some 32]).reply =
        some Status.failed ∧
      (runCmd bi0 dec0 c7pre 39
        [some 8, some 1, some 2, some 3, some 4, some 5, some 6, some 7, some 8, some 32]).st.key =
        [0, 0, 0, 0] := by
  decide

/-- C7 (amended): the key region is monotone — over any run it is either
untouched or zeroed, and `zero_key` is its only writer; `zero_key` runs in
every unencrypted PROG_MULTI that passes its argument, payload and EOC
checks with `address == 0`, whether or not the packet then succeeds, and
can therefore run more than once per session; a PROG_MULTI at a nonzero
address never touches the key. -/
theorem C7_key_zeroing :
    (∀ (bi : BoardInfo) (dec : List Nat → List Nat → List Nat → List Nat)
        (cmds : List (Nat × List (Option Nat))) (st : St),
      (runCmds bi dec st cmds).1.key = st.key ∨
        (runCmds bi dec st cmds).1.key = st.key.map (fun _ => 0)) ∧
    (∀ (bi : BoardInfo) (dec : List Nat → List Nat → List Nat → List Nat)
        (st : St) (b : Nat) (bytes : List Nat),
      b < 256 → b % 4 = 0 → bytes.length = b → st.address = 0 →
        b ≤ bi.fw_size → bi.fw_size < M32 →
        (runCmd bi dec st 39 (some b :: (bytes.map some ++ [some PROTO_EOC]))).st.key =
          st.key.map (fun _ => 0)) ∧
    (∀ (bi : BoardInfo) (dec : List Nat → List Nat → List Nat → List Nat)
        (st : St) (inp : List (Option Nat)),
      st.address ≠ 0 → (runCmd bi dec st 39 inp).st.key = st.key) := by
  have hM : M32 = 4294967296 := rfl
  refine ⟨?_, ?_, ?_⟩
  · exact fun bi dec cmds st => runCmds_key bi dec cmds st
  · intro bi dec st b bytes hb hmod4 hlen h0 hble hfwM
    rw [show runCmd bi dec st 39 (some b :: (bytes.map some ++ [some PROTO_EOC])) =
      doProgMulti bi st ⟨some b :: (bytes.map some ++ [some PROTO_EOC]), []⟩ from rfl]
    unfold doProgMulti
    rw [show cin_wait 50 ⟨some b :: (bytes.map some ++ [some PROTO_EOC]), []⟩ =
      (some (b % 256), ⟨bytes.map some ++ [some PROTO_EOC], [50]⟩) from rfl]
    dsimp only
    rw [Nat.mod_eq_of_lt hb]
    rw [if_neg (not_not_intro hmod4)]
    rw [if_neg (show ¬ (st.address + b) % M32 > bi.fw_size by
      rw [h0, Nat.zero_add, Nat.mod_eq_of_lt (by omega)]
      omega)]
    rw [if_neg (show ¬ b > 256 by omega)]
    rw [readBytes_complete2 1000 b bytes [some PROTO_EOC] [50] hlen]
    dsimp only
    rw [show wait_for_eoc 200 ⟨[some PROTO_EOC], [50] ++ List.replicate b 1000⟩ =
      (true, ⟨[], [50] ++ List.replicate b 1000 ++ [200]⟩) from rfl]
    dsimp only
    rw [if_pos h0]
    rw [progTail_st, writeWords_key]
    dsimp only [zero_key]
    exact keyZero_map st.key
  · intro bi dec st inp h0
    rw [show runCmd bi dec st 39 inp = doProgMulti bi st ⟨inp, []⟩ from rfl]
    unfold doProgMulti
    split
    case h_1 => rfl
    case h_2 p arg r1 heq1 =>
      split
      case isTrue => rfl
      case isFalse hmod =>
        split
        case isTrue => rfl
        case isFalse hsize =>
          split
          case isTrue => rfl
          case isFalse hlen =>
            split
            case h_1 => rfl
            case h_2 q bs r2 heq2 =>
              split
              case h_1 => rfl
              case h_2 e r3 heq3 =>
                rw [progTail_st, writeWords_key]
                split
                case isTrue hc => exact absurd hc h0
                case isFalse => rfl

/-- C7 witness: the amended statement applied after an erase on healthy
flash: a complete 4-byte PROG_MULTI at address 0 zeroes the key. -/
theorem C7_key_zeroing_witness :
    (runCmd bi0 dec0 st0 35 [some 32]).st.address = 0 ∧
      (runCmd bi0 dec0 (runCmd bi0 dec0 st0 35 [some 32]).st 39
        (some 4 :: ([9, 9, 9, 9].map some ++ [some PROTO_EOC]))).st.key =
        (runCmd bi0 dec0 st0 35 [some 32]).st.key.map (fun _ => 0) :=
  ⟨by decide,
    C7_key_zeroing.2.1 bi0 dec0 (runCmd bi0 dec0 st0 35 [some 32]).st 4 [9, 9, 9, 9]
      (by decide) (by decide) (by decide) (by decide) (by decide) (by decide)⟩

/-- Folding the CRC over concatenated byte strings chains the state. -/
theorem crc32_append (a b : List Nat) (s : Nat) :
    crc32 (a ++ b) s = crc32 b (crc32 a s) := by
  unfold crc32
  exact List.foldl_append crc32_update s a b

/-- The word the CRC loops use at offset `p`, as the spec describes it: the
in-memory `first_word` is substituted at offset 0 while an upload is
pending, the physical flash content is used everywhere else. -/
def specEffectiveWord (fw : Nat) (read : Nat → Nat) (p : Nat) : Nat :=
  if p = 0 ∧ fw ≠ FF then fw else read p

/-- The CRC32 (seed 0) of the first `n` words of the effective image, the
quantity the spec says GET_CRC and CHECK_CRC compute. -/
def specImageCrc (fw : Nat) (read : Nat → Nat) (n : Nat) : Nat :=
  crc32 (((List.range n).map (fun j => wordBytes (specEffectiveWord fw read (4 * j)))).flatten) 0

/-- The CRC loop of the code equals the spec-side CRC of the effective
image, at any word offset and seed. -/
theorem crcLoop_eq_spec_gen (read : Nat → Nat) (fw : Nat) (n : Nat) :
    ∀ (k s : Nat), crcLoop read fw n (4 * k) s =
      crc32 (((List.range n).map
        (fun j => wordBytes (specEffectiveWord fw read (4 * (k + j))))).flatten) s := by
  induction n with
  | zero => intro k s; rfl
  | succ n ih =>
    intro k s
    unfold crcLoop
    dsimp only
    rw [List.range_succ_eq_map]
    rw [List.map_cons, List.map_map, List.flatten_cons, crc32_append]
    have h4 : 4 * k + 4 = 4 * (k + 1) := by ring
    rw [h4, ih (k + 1) _]
    congr 1
    congr 1
    apply List.map_congr_left
    intro j _
    show wordBytes (specEffectiveWord fw read (4 * (k + 1 + j))) =
      wordBytes (specEffectiveWord fw read (4 * (k + (j + 1))))
    rw [show k + 1 + j = k + (j + 1) by omega]

/-- The CRC loop from offset 0 computes the spec-side image CRC. -/
theorem crcLoop_eq_spec (read : Nat → Nat) (fw : Nat) (n : Nat) :
    crcLoop read fw n 0 0 = specImageCrc fw read n := by
  have h := crcLoop_eq_spec_gen read fw n 0 0
  simpa [specImageCrc] using h

/-- C8: whenever a first word is pending (`first_word ≠ 0xFFFFFFFF`),
GET_CRC and CHECK_CRC compute their CRC32 over the effective image that
substitutes the in-memory `first_word` for the physical word at offset 0
and uses physical flash everywhere else; GET_CRC sums the `[0, fw_size)`
sweep and replies OK, CHECK_CRC sums the `[0, num_to_flash)` sweep and
replies OK exactly when it matches the stored expected sum. -/
theorem C8_crc_substitution (bi : BoardInfo)
    (dec : List Nat → List Nat → List Nat → List Nat) (st : St)
    (rest rest2 : List (Option Nat))
    (_hpend : st.first_word ≠ FF) (hnf : st.num_to_flash ≤ bi.fw_size) :
    (runCmd bi dec st 41 (some PROTO_EOC :: rest)).out =
      [specImageCrc st.first_word st.flash ((bi.fw_size + 3) / 4)] ∧
      (runCmd bi dec st 41 (some PROTO_EOC :: rest)).reply = some Status.ok ∧
      ((runCmd bi dec st 56 (some PROTO_EOC :: rest2)).reply = some Status.ok ↔
        specImageCrc st.first_word st.flash ((st.num_to_flash + 3) / 4) = st.crc32_sum) := by
  refine ⟨?_, ?_, ?_⟩
  · rw [show runCmd bi dec st 41 (some PROTO_EOC :: rest) =
      doGetCrc bi st ⟨some PROTO_EOC :: rest, []⟩ from rfl]
    unfold doGetCrc
    rw [show wait_for_eoc 2 ⟨some PROTO_EOC :: rest, []⟩ = (true, ⟨rest, [2]⟩) from rfl]
    dsimp only
    rw [crcLoop_eq_spec]
    rfl
  · rw [show runCmd bi dec st 41 (some PROTO_EOC :: rest) =
      doGetCrc bi st ⟨some PROTO_EOC :: rest, []⟩ from rfl]
    unfold doGetCrc
    rw [show wait_for_eoc 2 ⟨some PROTO_EOC :: rest, []⟩ = (true, ⟨rest, [2]⟩) from rfl]
    rfl
  · rw [show runCmd bi dec st 56 (some PROTO_EOC :: rest2) =
      doCheckCrc bi st ⟨some PROTO_EOC :: rest2, []⟩ from rfl]
    unfold doCheckCrc
    rw [show wait_for_eoc 2 ⟨some PROTO_EOC :: rest2, []⟩ = (true, ⟨rest2, [2]⟩) from rfl]
    dsimp only
    rw [if_neg (show ¬ st.num_to_flash > bi.fw_size by omega)]
    rw [crcLoop_eq_spec]
    by_cases heq : specImageCrc st.first_word st.flash ((st.num_to_flash + 3) / 4) = st.crc32_sum
    · rw [if_neg (not_not_intro heq)]
      simp [cmdOk, heq]
    · rw [if_pos heq]
      simp [cmdFail, heq]

/-- C8 witness: after erasing and uploading four bytes, GET_CRC on the
concrete session emits exactly the spec-side CRC of the effective image. -/
theorem C8_crc_substitution_witness :
    c4pre.first_word ≠ FF ∧ c4pre.num_to_flash ≤ bi0.fw_size ∧
      (runCmd bi0 dec0 c4pre 41 [some PROTO_EOC]).out =
        [specImageCrc c4pre.first_word c4pre.flash ((bi0.fw_size + 3) / 4)] :=
  ⟨by decide, by decide,
    (C8_crc_substitution bi0 dec0 c4pre [] [] (by decide) (by decide)).1⟩

/-- C10 counterexample: from a fresh session, erase, then a
PROG_MULTI_ENCRYPTED whose decrypted header requests more bytes than the
firmware region: the packet is rejected with FAILED (never accepted), yet
it has already stored `num_to_flash`, so a following well-framed CHECK_CRC
replies FAILED, not OK. -/
theorem C10_counterexample :
    (runCmd bi0 dec0 st0 35 [some 32]).reply = some Status.ok ∧
      (runCmd bi0 dec0 (runCmd bi0 dec0 st0 35 [some 32]).st 55
        (some 16 :: ([255, 255, 0, 0, 7, 7, 7, 7, 0, 0, 0, 0, 0, 0, 0, 0].map some ++ [some 32]))).reply =
        some Status.failed ∧
      (runCmd bi0 dec0
        (runCmd bi0 dec0 (runCmd bi0 dec0 st0 35 [some 32]).st 55
          (some 16 :: ([255, 255, 0, 0, 7, 7, 7, 7, 0, 0, 0, 0, 0, 0, 0, 0].map some ++ [some 32]))).st
        56 [some 32]).reply = some Status.failed := by
  decide

/-- C10 (amended): a well-framed CHECK_CRC replies OK whenever
`num_to_flash` and `crc32_sum` are both still 0 — which is the state until
some PROG_MULTI_ENCRYPTED packet has parsed a header at address 0, whether
or not that packet was ultimately accepted: the zero-length CRC sweep
computes 0, which matches the stored 0. -/
theorem C10_check_crc_fresh (bi : BoardInfo)
    (dec : List Nat → List Nat → List Nat → List Nat) (st : St)
    (rest : List (Option Nat))
    (h1 : st.num_to_flash = 0) (h2 : st.crc32_sum = 0) :
    (runCmd bi dec st 56 (some PROTO_EOC :: rest)).reply = some Status.ok := by
  rw [show runCmd bi dec st 56 (some PROTO_EOC :: rest) =
    doCheckCrc bi st ⟨some PROTO_EOC :: rest, []⟩ from rfl]
  unfold doCheckCrc
  rw [show wait_for_eoc 2 ⟨some PROTO_EOC :: rest, []⟩ = (true, ⟨rest, [2]⟩) from rfl]
  dsimp only
  rw [if_neg (show ¬ st.num_to_flash > bi.fw_size by omega)]
  rw [show (st.num_to_flash + 3) / 4 = 0 by rw [h1]]
  rw [if_neg (show ¬ crcLoop st.flash st.first_word 0 0 0 ≠ st.crc32_sum by
    rw [h2]
    exact not_not_intro rfl)]
  rfl

/-- C10 witness: a fresh session's CHECK_CRC replies OK. -/
theorem C10_check_crc_fresh_witness :
    st0.num_to_flash = 0 ∧ st0.crc32_sum = 0 ∧
      (runCmd bi0 dec0 st0 56 [some PROTO_EOC]).reply = some Status.ok :=
  ⟨by decide, by decide, C10_check_crc_fresh bi0 dec0 st0 [] (by decide) (by decide)⟩

/-- One successful byte read: value masked to a byte, deadline recorded. -/
theorem cin_wait_cons (t b : Nat) (rest : List (Option Nat)) (dls : List Nat) :
    cin_wait t ⟨some b :: rest, dls⟩ = (some (b % 256), ⟨rest, dls ++ [t]⟩) := rfl

/-- One EOC read from a successful byte: the deadline is recorded and the
flag compares the masked byte against PROTO_EOC. -/
theorem wait_for_eoc_cons (t c : Nat) (rest : List (Option Nat)) (dls : List Nat) :
    wait_for_eoc t ⟨some c :: rest, dls⟩
      = (decide (some (c % 256) = some PROTO_EOC), ⟨rest, dls ++ [t]⟩) := rfl

/-- A fully supplied `cin_word`: four reads at the same deadline. -/
theorem cin_word_cons (t b0 b1 b2 b3 : Nat) (rest : List (Option Nat)) (dls : List Nat) :
    cin_word t ⟨some b0 :: some b1 :: some b2 :: some b3 :: rest, dls⟩
      = (some (bytesWord (b0 % 256) (b1 % 256) (b2 % 256) (b3 % 256)),
         ⟨rest, dls ++ [t, t, t, t]⟩) := by
  simp [cin_word, cin_wait_cons]

/-- C9 counterexample: the spec requires a 1000 ms deadline for the
argument word of GET_OTP, but the code (`cin_word(&index, 100)`) reads the
four argument bytes of GET_OTP with a 100 ms deadline each, so a
well-framed GET_OTP produces the deadline trace [100, 100, 100, 100, 2]
and not the claimed [1000, 1000, 1000, 1000, 2]. -/
theorem C9_counterexample :
    (runCmd bi0 dec0 st0 42 [some 0, some 0, some 0, some 0, some 32]).dls
        = [100, 100, 100, 100, 2] ∧
    ¬ (runCmd bi0 dec0 st0 42 [some 0, some 0, some 0, some 0, some 32]).dls
        = [1000, 1000, 1000, 1000, 2] := by
  exact ⟨by decide, by decide⟩

/-- C9, amended: the per-read deadlines are exactly: 1000 ms for the
argument byte of GET_DEVICE but 100 ms for each argument byte of GET_OTP,
GET_SN and SET_DELAY; 50 ms for the PROG_MULTI and PROG_MULTI_ENCRYPTED
length byte and 1000 ms per payload data byte; and for EOC, 2 ms for short
commands (here shown for GET_SYNC, CHIP_ERASE, GET_CRC, GET_CHIP,
GET_CHIP_DES, CHECK_CRC, CHECK_KEY, and visible above for the argument
commands), 200 ms after a PROG_MULTI or PROG_MULTI_ENCRYPTED payload, and
1000 ms after BOOT. -/
theorem C9_read_deadlines :
    (∀ (bi : BoardInfo) (dec : List Nat → List Nat → List Nat → List Nat) (st : St)
        (b c : Nat) (rest : List (Option Nat)),
      (runCmd bi dec st 34 (some b :: some c :: rest)).dls = [1000, 2]) ∧
    (∀ (bi : BoardInfo) (dec : List Nat → List Nat → List Nat → List Nat) (st : St)
        (b0 b1 b2 b3 c : Nat) (rest : List (Option Nat)),
      (runCmd bi dec st 42
          (some b0 :: some b1 :: some b2 :: some b3 :: some c :: rest)).dls
        = [100, 100, 100, 100, 2]) ∧
    (∀ (bi : BoardInfo) (dec : List Nat → List Nat → List Nat → List Nat) (st : St)
        (b0 b1 b2 b3 c : Nat) (rest : List (Option Nat)),
      (runCmd bi dec st 43
          (some b0 :: some b1 :: some b2 :: some b3 :: some c :: rest)).dls
        = [100, 100, 100, 100, 2]) ∧
    (∀ (bi : BoardInfo) (dec : List Nat → List Nat → List Nat → List Nat) (st : St)
        (v c : Nat) (rest : List (Option Nat)), v % 256 ≤ bi.boot_delay_max →
      (runCmd bi dec st 45 (some v :: some c :: rest)).dls = [100, 2]) ∧
    (∀ (bi : BoardInfo) (dec : List Nat → List Nat → List Nat → List Nat) (st : St)
        (n : Nat) (bytes : List Nat) (c : Nat),
      n < 256 → n % 4 = 0 → bytes.length = n → (st.address + n) % M32 ≤ bi.fw_size →
      (runCmd bi dec st 39 (some n :: (bytes.map some ++ [some c]))).dls
        = 50 :: (List.replicate n 1000 ++ [200])) ∧
    (∀ (bi : BoardInfo) (dec : List Nat → List Nat → List Nat → List Nat) (st : St)
        (n : Nat) (bytes : List Nat) (c : Nat),
      n < 256 → n % 4 = 0 → bytes.length = n → (st.address + n) % M32 ≤ bi.fw_size →
      (runCmd bi dec st 55 (some n :: (bytes.map some ++ [some c]))).dls
        = 50 :: (List.replicate n 1000 ++ [200])) ∧
    (∀ (bi : BoardInfo) (dec : List Nat → List Nat → List Nat → List Nat) (st : St)
        (c : Nat) (rest : List (Option Nat)),
      (runCmd bi dec st 48 (some c :: rest)).dls = [1000]) ∧
    (∀ (bi : BoardInfo) (dec : List Nat → List Nat → List Nat → List Nat) (st : St)
        (c : Nat) (rest : List (Option Nat)) (op : Nat),
      op = 33 ∨ op = 35 ∨ op = 41 ∨ op = 44 ∨ op = 46 ∨ op = 56 ∨ op = 57 →
      (runCmd bi dec st op (some c :: rest)).dls = [2]) := by
  refine ⟨?_, ?_, ?_, ?_, ?_, ?_, ?_, ?_⟩
  · intro bi dec st b c rest
    rw [show runCmd bi dec st 34 (some b :: some c :: rest)
          = doGetDevice bi st ⟨some b :: some c :: rest, []⟩ from rfl]
    unfold doGetDevice
    rw [cin_wait_cons]
    dsimp only
    rw [wait_for_eoc_cons]
    cases hd : decide (some (c % 256) = some PROTO_EOC)
    · rfl
    · dsimp only
      split_ifs <;> rfl
  · intro bi dec st b0 b1 b2 b3 c rest
    rw [show runCmd bi dec st 42
          (some b0 :: some b1 :: some b2 :: some b3 :: some c :: rest)
          = doGetOtp bi st
              ⟨some b0 :: some b1 :: some b2 :: some b3 :: some c :: rest, []⟩ from rfl]
    unfold doGetOtp
    rw [cin_word_cons]
    dsimp only
    rw [wait_for_eoc_cons]
    cases hd : decide (some (c % 256) = some PROTO_EOC) <;> rfl
  · intro bi dec st b0 b1 b2 b3 c rest
    rw [show runCmd bi dec st 43
          (some b0 :: some b1 :: some b2 :: some b3 :: some c :: rest)
          = doGetSn bi st
              ⟨some b0 :: some b1 :: some b2 :: some b3 :: some c :: rest, []⟩ from rfl]
    unfold doGetSn
    rw [cin_word_cons]
    dsimp only
    rw [wait_for_eoc_cons]
    cases hd : decide (some (c % 256) = some PROTO_EOC) <;> rfl
  · intro bi dec st v c rest hv
    rw [show runCmd bi dec st 45 (some v :: some c :: rest)
          = doSetDelay bi st ⟨some v :: some c :: rest, []⟩ from rfl]
    unfold doSetDelay
    rw [cin_wait_cons]
    dsimp only
    rw [if_neg (not_lt.mpr hv)]
    rw [wait_for_eoc_cons]
    cases hd : decide (some (c % 256) = some PROTO_EOC)
    · rfl
    · dsimp only
      split_ifs <;> rfl
  · intro bi dec st n bytes c hn h4 hlen hsz
    rw [show runCmd bi dec st 39 (some n :: (bytes.map some ++ [some c]))
          = doProgMulti bi st ⟨some n :: (bytes.map some ++ [some c]), []⟩ from rfl]
    unfold doProgMulti
    rw [cin_wait_cons]
    dsimp only
    rw [Nat.mod_eq_of_lt hn]
    rw [if_neg (not_not_intro h4)]
    rw [if_neg (not_lt.mpr hsz)]
    rw [if_neg (by omega : ¬ n > 256)]
    rw [readBytes_complete2 1000 n bytes [some c] ([] ++ [50]) hlen]
    dsimp only
    rw [wait_for_eoc_cons]
    cases hd : decide (some (c % 256) = some PROTO_EOC)
    · rfl
    · dsimp only
      rw [progTail_dls]
      rfl
  · intro bi dec st n bytes c hn h4 hlen hsz
    rw [show runCmd bi dec st 55 (some n :: (bytes.map some ++ [some c]))
          = doProgMultiEnc bi dec st
              ⟨some n :: (bytes.map some ++ [some c]), []⟩ from rfl]
    unfold doProgMultiEnc
    rw [cin_wait_cons]
    dsimp only
    rw [Nat.mod_eq_of_lt hn]
    rw [if_neg (not_not_intro h4)]
    rw [if_neg (not_lt.mpr hsz)]
    rw [if_neg (by omega : ¬ n > 256)]
    rw [readBytes_complete2 1000 n bytes [some c] ([] ++ [50]) hlen]
    dsimp only
    rw [wait_for_eoc_cons]
    cases hd : decide (some (c % 256) = some PROTO_EOC)
    · rfl
    · dsimp only
      split_ifs <;> first
        | rfl
        | (rw [progTail_dls]; rfl)
  · intro bi dec st c rest
    rw [show runCmd bi dec st 48 (some c :: rest)
          = doBoot st ⟨some c :: rest, []⟩ from rfl]
    unfold doBoot
    rw [wait_for_eoc_cons]
    cases hd : decide (some (c % 256) = some PROTO_EOC)
    · rfl
    · dsimp only
      split_ifs <;> rfl
  · intro bi dec st c rest op hop
    rcases hop with h | h | h | h | h | h | h
    · subst h
      rw [show runCmd bi dec st 33 (some c :: rest)
            = doGetSync st ⟨some c :: rest, []⟩ from rfl]
      unfold doGetSync
      rw [wait_for_eoc_cons]
      cases hd : decide (some (c % 256) = some PROTO_EOC) <;> rfl
    · subst h
      rw [show runCmd bi dec st 35 (some c :: rest)
            = doChipErase bi st ⟨some c :: rest, []⟩ from rfl]
      unfold doChipErase
      rw [wait_for_eoc_cons]
      cases hd : decide (some (c % 256) = some PROTO_EOC)
      · rfl
      · dsimp only
        split <;> rfl
    · subst h
      rw [show runCmd bi dec st 41 (some c :: rest)
            = doGetCrc bi st ⟨some c :: rest, []⟩ from rfl]
      unfold doGetCrc
      rw [wait_for_eoc_cons]
      cases hd : decide (some (c % 256) = some PROTO_EOC) <;> rfl
    · subst h
      rw [show runCmd bi dec st 44 (some c :: rest)
            = doGetChip bi st ⟨some c :: rest, []⟩ from rfl]
      unfold doGetChip
      rw [wait_for_eoc_cons]
      cases hd : decide (some (c % 256) = some PROTO_EOC) <;> rfl
    · subst h
      rw [show runCmd bi dec st 46 (some c :: rest)
            = doGetChipDes bi st ⟨some c :: rest, []⟩ from rfl]
      unfold doGetChipDes
      rw [wait_for_eoc_cons]
      cases hd : decide (some (c % 256) = some PROTO_EOC) <;> rfl
    · subst h
      rw [show runCmd bi dec st 56 (some c :: rest)
            = doCheckCrc bi st ⟨some c :: rest, []⟩ from rfl]
      unfold doCheckCrc
      rw [wait_for_eoc_cons]
      cases hd : decide (some (c % 256) = some PROTO_EOC)
      · rfl
      · dsimp only
        split_ifs <;> rfl
    · subst h
      rw [show runCmd bi dec st 57 (some c :: rest)
            = doCheckKey st ⟨some c :: rest, []⟩ from rfl]
      unfold doCheckKey
      rw [wait_for_eoc_cons]
      cases hd : decide (some (c % 256) = some PROTO_EOC)
      · rfl
      · dsimp only
        split_ifs <;> rfl

/-- C9 witness: the amended deadline traces at concrete inputs — SET_DELAY
with argument 5 (≤ boot_delay_max) reads at [100, 2], and a 4-byte
PROG_MULTI reads at [50, 1000, 1000, 1000, 1000, 200]. -/
theorem C9_read_deadlines_witness :
    (runCmd bi0 dec0 st0 45 [some 5, some 32]).dls = [100, 2] ∧
    (runCmd bi0 dec0 { st0 with address := 0 } 39
        (some 4 :: ([1, 2, 3, 4].map some ++ [some 32]))).dls
      = 50 :: (List.replicate 4 1000 ++ [200]) := by
  constructor
  · exact C9_read_deadlines.2.2.2.1 bi0 dec0 st0 5 32 [] (by decide)
  · exact C9_read_deadlines.2.2.2.2.1 bi0 dec0 { st0 with address := 0 } 4 [1, 2, 3, 4] 32
      (by decide) (by decide) (by decide) (by decide)

end BL
